import Mathlib

/-!
Verification development for the activity-cache subsystem of the
private-note viewer: a shallow embedding, in Lean, of the JavaScript
modules ActivityDatabase (activity-database.js), SmartActivityCache
(smart-activity-cache.js), WeeklyMileageDatabase
(weekly-mileage-database.js), WeeklyMileageCalculator
(weekly-mileage-calculator.js) and the viewer's refreshData flow
(PrivateNotesViewer.jsx), together with theorems settling the frozen
claims about that subsystem.

Modelling conventions:
* Instants are integer milliseconds since the Unix epoch; the runtime's
  local timezone is modelled as a fixed zero offset (UTC), so local and
  UTC calendar fields coincide.  Day numbers are days since 1970-01-01.
* Activity identifiers are strings; the JavaScript String(id) coercion
  is the identity under this model.
* IndexedDB object stores are modelled as lists of records with unique
  keys; put upserts in place, get looks the key up.  Store operations
  are modelled as total (the degraded paths taken when IndexedDB itself
  throws are runtime-environment behaviour outside the embedding).
* The remote API is an oracle indexed by the number of remote calls made
  so far in the scenario, so that rate limiting on the Nth call and
  per-call failures can be expressed.
* Numeric activity fields (distances, durations) are integers; floating
  point rounding plays no role in any claim considered here.
-/

/-- Milliseconds in one day. -/
def msPerDay : Int := 86400000

/-- Day number (days since 1970-01-01) containing a millisecond timestamp. -/
def msToDay (ms : Int) : Int := ms.ediv msPerDay

/-- Civil Gregorian date (year, month, day) of a day number. -/
def civilFromDays (z0 : Int) : Int × Int × Int :=
  let z := z0 + 719468
  let era := z.ediv 146097
  let doe := z - era * 146097
  let yoe := (doe - doe.ediv 1460 + doe.ediv 36524 - doe.ediv 146096).ediv 365
  let y := yoe + era * 400
  let doy := doe - (365 * yoe + yoe.ediv 4 - yoe.ediv 100)
  let mp := (5 * doy + 2).ediv 153
  let d := doy - (153 * mp + 2).ediv 5 + 1
  let m := mp + (if mp < 10 then 3 else -9)
  (if m ≤ 2 then y + 1 else y, m, d)

/-- Day number of a civil Gregorian date (inverse of civilFromDays). -/
def daysFromCivil (y m d : Int) : Int :=
  let y' := if m ≤ 2 then y - 1 else y
  let era := y'.ediv 400
  let yoe := y' - era * 400
  let doy := (153 * (m + (if 2 < m then -3 else 9)) + 2).ediv 5 + d - 1
  let doe := yoe * 365 + yoe.ediv 4 - yoe.ediv 100 + doy
  era * 146097 + doe - 719468

/-- Calendar year containing a day number. -/
def yearOfDay (n : Int) : Int := (civilFromDays n).1

/-- JavaScript Date.prototype.getDay of a timestamp: 0 = Sunday, ..., 6 = Saturday. -/
def jsGetDay (ms : Int) : Int := (msToDay ms + 4).emod 7

example : yearOfDay 19723 = 2024 := by decide
example : civilFromDays 19723 = (2024, 1, 1) := by decide
example : civilFromDays 20087 = (2024, 12, 30) := by decide
example : daysFromCivil 2025 1 1 = 20089 := by decide
example : jsGetDay (19723 * 86400000) = 1 := by decide

/-- Activity record.  The first block of fields is the data carried by remote
summary/detail payloads; the trailing optional fields are the cache metadata
that ActivityDatabase.storeActivity adds when persisting (absent, i.e. none,
on records that have never been enhanced by the store). -/
structure Activity where
  id : String
  name : String
  distance : Int
  moving_time : Int
  elapsed_time : Int
  total_elevation_gain : Int
  type : String
  sport_type : String
  start_date : Int
  private_note : Option String
  has_private_note : Option Bool
  private_note_length : Option Int
  last_updated : Option Int
  cached_at : Option Int
  deriving Repr, DecidableEq

instance : Inhabited Activity :=
  ⟨⟨"", "", 0, 0, 0, 0, "", "", 0, none, none, none, none, none⟩⟩

/-- JavaScript truthiness of an optional string field: undefined and the empty
string are falsy (this is the Boolean(x) coercion used by storeActivity). -/
def jsTruthy : Option String → Bool
  | none => false
  | some "" => false
  | some _ => true

/-- Length stored by storeActivity: the note's length when the note is truthy,
0 otherwise (the empty string yields 0 either way). -/
def jsNoteLength : Option String → Int
  | none => 0
  | some s => s.length

/-- projection of a record onto its non-derived fields: the four cache-metadata
fields are cleared. -/
def stripMeta (a : Activity) : Activity :=
  { a with has_private_note := none, private_note_length := none,
           last_updated := none, cached_at := none }

/-- Upsert into a keyed collection: replace the record bearing the same key, or
append when the key is new.  Models both an IndexedDB put (store keys are
unique) and JavaScript Map.prototype.set. -/
def upsertBy {α : Type} (key : α → String) (x : α) : List α → List α
  | [] => [x]
  | y :: t => if key y = key x then x :: t else y :: upsertBy key x t

/-- Lookup by key in a keyed collection: models IndexedDB get and Map.get. -/
def findBy {α : Type} (key : α → String) (k : String) (l : List α) : Option α :=
  l.find? (fun y => decide (key y = k))

theorem findBy_upsertBy_self {α : Type} (key : α → String) (x : α) (l : List α) :
    findBy key (key x) (upsertBy key x l) = some x := by
  induction l with
  | nil => simp [upsertBy, findBy]
  | cons y t ih =>
    by_cases h : key y = key x
    · simp [upsertBy, h, findBy]
    · simpa [upsertBy, h, findBy] using ih

theorem findBy_upsertBy_ne {α : Type} (key : α → String) (x : α) (l : List α)
    (k : String) (h : k ≠ key x) :
    findBy key k (upsertBy key x l) = findBy key k l := by
  have hx : (decide (key x = k)) = false := decide_eq_false (fun hk => h hk.symm)
  induction l with
  | nil => simp [upsertBy, findBy, List.find?, hx]
  | cons y t ih =>
    by_cases hy : key y = key x
    · have hyk : (decide (key y = k)) = false := by rw [hy]; exact hx
      simp [upsertBy, hy, findBy, List.find?, hx, hyk]
    · by_cases hyk : key y = k
      · simp [upsertBy, hy, findBy, List.find?, hyk, h]
      · simpa [upsertBy, hy, findBy, List.find?, hyk] using ih

theorem findBy_eq_some_key {α : Type} {key : α → String} {k : String} {l : List α}
    {a : α} (h : findBy key k l = some a) : key a = k := by
  have := List.find?_some h
  simpa using this

theorem findBy_isSome_upsertBy {α : Type} (key : α → String) (x : α) (l : List α)
    (k : String) (h : (findBy key k l).isSome) :
    (findBy key k (upsertBy key x l)).isSome := by
  by_cases hk : k = key x
  · subst hk; simp [findBy_upsertBy_self]
  · rw [findBy_upsertBy_ne key x l k hk]; exact h

namespace ActivityDatabase

/-- The activities object store: stored records, keyed by the id field. -/
abbrev Db := List Activity

/-- Record actually written by storeActivity: the input spread together with
the derived metadata fields has_private_note, private_note_length,
last_updated and cached_at. -/
def enhanceActivity (now : Int) (a : Activity) : Activity :=
  { a with
    has_private_note := some (jsTruthy a.private_note)
    private_note_length := some (jsNoteLength a.private_note)
    last_updated := some now
    cached_at := some now }

/-- ActivityDatabase.storeActivity: enhance with derived metadata then put
(upsert by id) into the store. -/
def storeActivity (db : Db) (now : Int) (a : Activity) : Db :=
  upsertBy (fun r => r.id) (enhanceActivity now a) db

/-- ActivityDatabase.getActivity: key lookup, null (none) when absent. -/
def getActivity (db : Db) (activityId : String) : Option Activity :=
  findBy (fun r => r.id) activityId db

/-- ActivityDatabase.getActivities: per-id lookups with the nulls filtered out,
in request order. -/
def getActivities (db : Db) (activityIds : List String) : List Activity :=
  activityIds.filterMap (getActivity db)

/-- ActivityDatabase.getAllActivities: full store contents. -/
def getAllActivities (db : Db) : List Activity := db

/-- ActivityDatabase.getMissingActivityIds: the requested ids whose lookup
found nothing. -/
def getMissingActivityIds (db : Db) (activityIds : List String) : List String :=
  let cachedIds := (getActivities db activityIds).map (fun a => a.id)
  activityIds.filter (fun id => decide (id ∉ cachedIds))

end ActivityDatabase

/-- In-session JavaScript Map from String(id) to activity record. -/
abbrev JsMap := List (String × Activity)

/-- Map.prototype.set. -/
def mapSet (m : JsMap) (k : String) (v : Activity) : JsMap :=
  upsertBy (fun p => p.1) (k, v) m

/-- Map.prototype.get (undefined modelled as none). -/
def mapGet (m : JsMap) (k : String) : Option Activity :=
  (findBy (fun p => p.1) k m).map (fun p => p.2)

theorem mapGet_set_self (m : JsMap) (k : String) (v : Activity) :
    mapGet (mapSet m k v) k = some v := by
  have := findBy_upsertBy_self (fun p : String × Activity => p.1) (k, v) m
  simp [mapGet, mapSet, this]

theorem mapGet_set_ne (m : JsMap) (k k' : String) (v : Activity) (h : k ≠ k') :
    mapGet (mapSet m k' v) k = mapGet m k := by
  have := findBy_upsertBy_ne (fun p : String × Activity => p.1) (k', v) m k h
  simp [mapGet, mapSet, this]

/-- Error taxonomy of the remote fetcher, as distinguished by the callers:
rate limiting (HTTP 429, message matched against '429'/'rate limit') versus
every other failure. -/
inductive ApiErr
  | rateLimited
  | other
  deriving Repr, DecidableEq

deriving instance DecidableEq for Except

/-- Oracle for the remote Strava API.  Each method takes the number of remote
calls issued so far in the scenario, so that responses may depend on call
order (stubbing a failure on the Nth call).  getActivities carries the
optional after/before bounds in epoch seconds. -/
structure Api where
  getActivity : Nat → String → Except ApiErr Activity
  getActivities : Nat → Option Int → Option Int → Except ApiErr (List Activity)
  getAthlete : Nat → Bool

/-- State owned by a SmartActivityCache instance: the injected access token,
the session memory cache, the (shared) persistent activity store, and the
session counters. -/
structure CacheState where
  accessToken : Option String
  memoryCache : JsMap
  db : ActivityDatabase.Db
  apiCallCount : Nat
  cacheHitCount : Nat
  deriving Repr, DecidableEq

/-- JavaScript truthiness of the access token (absent and empty are falsy). -/
def tokenPresent (t : Option String) : Bool := jsTruthy t

namespace SmartActivityCache

/-- SmartActivityCache.storeActivity: write to the memory cache and persist
through the activity database (which adds the derived metadata). -/
def storeActivity (st : CacheState) (now : Int) (a : Activity) : CacheState :=
  { st with
    memoryCache := mapSet st.memoryCache a.id a
    db := ActivityDatabase.storeActivity st.db now a }

/-- The per-missing-id fetch loop of loadActivitiesWithPrivateNotes: for each
missing id, count the API call, fetch the detail record; on success store it
in both caches and record it in the lookup map under the returned record's id;
on any failure fall back to the matching input summary record, if one exists.
Returns the updated cache state, global call counter and lookup map. -/
def fetchLoop (api : Api) (now : Int) (summaries : List Activity) :
    List String → CacheState → Nat → JsMap → CacheState × Nat × JsMap
  | [], st, calls, m => (st, calls, m)
  | id :: rest, st, calls, m =>
    let st1 := { st with apiCallCount := st.apiCallCount + 1 }
    match api.getActivity calls id with
    | .ok activity =>
        fetchLoop api now summaries rest (storeActivity st1 now activity) (calls + 1)
          (mapSet m activity.id activity)
    | .error _ =>
        match summaries.find? (fun s => decide (s.id = id)) with
        | some s => fetchLoop api now summaries rest st1 (calls + 1) (mapSet m id s)
        | none => fetchLoop api now summaries rest st1 (calls + 1) m

/-- Result of loadActivitiesWithPrivateNotes: the returned records, the
updated cache state and the updated global remote-call counter. -/
structure LoadOut where
  result : List Activity
  cache : CacheState
  calls : Nat
  deriving Repr, DecidableEq

/-- Cached subset read back by loadActivitiesWithPrivateNotes: the getActivities
round trip is issued only when at least one id was not missing. -/
def cachedForLoad (db : ActivityDatabase.Db) (activityIds missingIds : List String) :
    List Activity :=
  if missingIds.length < activityIds.length then
    ActivityDatabase.getActivities db
      (activityIds.filter (fun id => decide (id ∉ missingIds)))
  else []

/-- The forEach populating a lookup map (and the memory cache) from a list of
records, keyed by each record's id. -/
def buildMap (cachedActivities : List Activity) (m : JsMap) : JsMap :=
  cachedActivities.foldl (fun m a => mapSet m a.id a) m

/-- The no-token fallback: each missing id is mapped to the first input summary
record bearing that id, when one exists. -/
def summaryFallback (summaries : List Activity) (missingIds : List String)
    (m : JsMap) : JsMap :=
  missingIds.foldl
    (fun m id =>
      match summaries.find? (fun s => decide (s.id = id)) with
      | some s => mapSet m id s
      | none => m) m

/-- SmartActivityCache.loadActivitiesWithPrivateNotes: diff the requested ids
against the persistent store, read the cached subset (also populating the
memory cache), fetch each missing id individually when a token is available
(falling back to the summary record on per-id failure), otherwise fall back to
the summary records directly, and return the assembled records in the original
input order, dropping ids that produced no record. -/
def loadActivitiesWithPrivateNotes (api : Api) (now : Int) (st : CacheState)
    (calls : Nat) (summaryActivities : List Activity) : LoadOut :=
  if summaryActivities.isEmpty then ⟨[], st, calls⟩ else
  let activityIds := summaryActivities.map (fun a => a.id)
  let missingIds := ActivityDatabase.getMissingActivityIds st.db activityIds
  let cachedActivities := cachedForLoad st.db activityIds missingIds
  let m0 := buildMap cachedActivities []
  let st1 := { st with memoryCache := buildMap cachedActivities st.memoryCache }
  if tokenPresent st1.accessToken && !missingIds.isEmpty then
    let out := fetchLoop api now summaryActivities missingIds st1 calls m0
    ⟨activityIds.filterMap (mapGet out.2.2), out.1, out.2.1⟩
  else
    ⟨activityIds.filterMap (mapGet (summaryFallback summaryActivities missingIds m0)),
     st1, calls⟩

end SmartActivityCache

namespace WeeklyMileageDatabase

/-- WeeklyMileageDatabase.getWeekStart: midnight of the Monday of the week
containing the given instant. -/
def getWeekStart (ms : Int) : Int :=
  let day := jsGetDay ms
  (msToDay ms - (if day = 0 then 6 else day - 1)) * msPerDay

/-- WeeklyMileageDatabase.getWeekEnd: the last millisecond (23:59:59.999) of
the Sunday of the week containing the given instant. -/
def getWeekEnd (ms : Int) : Int := getWeekStart ms + 7 * msPerDay - 1

/-- WeeklyMileageDatabase.getWeekNumber: the ISO week number of the date's
week, computed from the Thursday of that week against January 1 of the
Thursday's year. -/
def getWeekNumber (ms : Int) : Int :=
  let n := msToDay ms
  let w := (n + 4).emod 7
  let dayNum := if w = 0 then 7 else w
  let thursday := n + 4 - dayNum
  let yearStart := daysFromCivil (yearOfDay thursday) 1 1
  (thursday - yearStart + 7).ediv 7

/-- String.prototype.padStart(2, '0') applied to a number's decimal print. -/
def padStart2 (s : String) : String :=
  if s.length < 2 then "0" ++ s else s

/-- WeeklyMileageDatabase.getWeekId: the week key, rendered from the calendar
year of the week's Monday and the ISO week number of that Monday. -/
def getWeekId (ms : Int) : String :=
  let monday := getWeekStart ms
  toString (yearOfDay (msToDay monday)) ++ "-" ++ padStart2 (toString (getWeekNumber monday))

example : getWeekId (19723 * 86400000) = "2024-01" := by decide

/-- Denormalized per-activity entry recorded inside a weekly aggregate. -/
structure SlimActivity where
  id : String
  name : String
  distance : Int
  moving_time : Int
  start_date : Int
  type : String
  deriving Repr, DecidableEq

/-- Weekly aggregate as produced by calculateWeekData (before persistence). -/
structure WeeklyData where
  weekId : String
  year : Int
  weekNumber : Int
  weekStart : Int
  weekEnd : Int
  totalDistance : Int
  totalTime : Int
  totalElevation : Int
  runCount : Nat
  isComplete : Bool
  activities : List SlimActivity
  deriving Repr, DecidableEq

/-- Weekly aggregate as persisted by storeWeeklyMileage (the computed data
plus the store's own timestamps). -/
structure StoredWeeklyData extends WeeklyData where
  calculatedAt : Int
  lastUpdated : Int
  deriving Repr, DecidableEq

/-- The weekly_mileage object store, keyed by weekId. -/
abbrev WDb := List StoredWeeklyData

/-- JavaScript x || y on integers (0 is falsy). -/
def jsOrInt (x y : Int) : Int := if x = 0 then y else x

/-- WeeklyMileageDatabase.storeWeeklyMileage: re-assemble the record with
falsy-field defaulting and fresh timestamps, then put (upsert by weekId). -/
def storeWeeklyMileage (wdb : WDb) (now : Int) (weekData : WeeklyData) : WDb :=
  let weeklyData : StoredWeeklyData :=
    { weekId := weekData.weekId
      year := weekData.year
      weekNumber := weekData.weekNumber
      weekStart := weekData.weekStart
      weekEnd := weekData.weekEnd
      totalDistance := jsOrInt weekData.totalDistance 0
      totalTime := jsOrInt weekData.totalTime 0
      totalElevation := jsOrInt weekData.totalElevation 0
      runCount := weekData.runCount
      isComplete := weekData.isComplete || false
      activities := weekData.activities
      calculatedAt := now
      lastUpdated := now }
  upsertBy (fun w => w.weekId) weeklyData wdb

/-- WeeklyMileageDatabase.getWeeklyMileage: key lookup, null when absent. -/
def getWeeklyMileage (wdb : WDb) (weekId : String) : Option StoredWeeklyData :=
  findBy (fun w => w.weekId) weekId wdb

end WeeklyMileageDatabase

namespace WeeklyMileageCalculator

/-- Session statistics kept by the calculator. -/
structure CalcStats where
  weeksProcessed : Nat
  apiCallsMade : Nat
  cacheHits : Nat
  rateLimitReached : Bool
  lastError : Option ApiErr
  deriving Repr, DecidableEq

/-- The freshly reset statistics at the start of a calculation. -/
def initialStats : CalcStats :=
  { weeksProcessed := 0, apiCallsMade := 0, cacheHits := 0,
    rateLimitReached := false, lastError := none }

/-- State owned by a WeeklyMileageCalculator instance, together with the two
stores it works against. -/
structure CalculatorState where
  isCalculating : Bool
  calculationStats : CalcStats
  wdb : WeeklyMileageDatabase.WDb
  cache : CacheState
  deriving Repr, DecidableEq

/-- The mutable state threaded through one calculation pass: both stores, the
running statistics and the global remote-call counter. -/
structure PassState where
  wdb : WeeklyMileageDatabase.WDb
  cache : CacheState
  stats : CalcStats
  calls : Nat
  deriving Repr, DecidableEq

/-- Run-type test used throughout the calculator. -/
def isRun (a : Activity) : Bool :=
  decide (a.type = "Run") || decide (a.sport_type = "Run")

/-- WeeklyMileageCalculator.getCachedActivitiesForWeek: all persisted
activities whose start_date falls within the week (inclusive bounds). -/
def getCachedActivitiesForWeek (db : ActivityDatabase.Db) (weekStart weekEnd : Int) :
    List Activity :=
  (ActivityDatabase.getAllActivities db).filter
    (fun a => decide (weekStart ≤ a.start_date ∧ a.start_date ≤ weekEnd))

/-- WeeklyMileageCalculator.hasCompleteWeekCoverage: no cached runs means no
coverage; weeks that ended more than 7 days ago are trusted on any cached run;
more recent weeks require cached runs spanning at least two distinct calendar
days.  (The weekStart parameter is unused, as in the source.) -/
def hasCompleteWeekCoverage (now : Int) (cachedRuns : List Activity)
    (_weekStart weekEnd : Int) : Bool :=
  if cachedRuns.isEmpty then false
  else if 7 * msPerDay < now - weekEnd then true
  else decide (2 ≤ ((cachedRuns.map (fun r => msToDay r.start_date)).dedup).length)

/-- WeeklyMileageCalculator.calculateWeekData: totals over the given runs plus
the denormalized activity list; isComplete is passed by the caller. -/
def calculateWeekData (weekId : String) (weekStart weekEnd : Int)
    (runs : List Activity) (isComplete : Bool) : WeeklyMileageDatabase.WeeklyData :=
  { weekId := weekId
    year := yearOfDay (msToDay weekStart)
    weekNumber := WeeklyMileageDatabase.getWeekNumber weekStart
    weekStart := weekStart
    weekEnd := weekEnd
    totalDistance := runs.foldl (fun sum r => sum + r.distance) 0
    totalTime := runs.foldl (fun sum r => sum + WeeklyMileageDatabase.jsOrInt r.moving_time r.elapsed_time) 0
    totalElevation := runs.foldl (fun sum r => sum + r.total_elevation_gain) 0
    runCount := runs.length
    isComplete := isComplete
    activities := runs.map (fun r =>
      { id := r.id, name := r.name, distance := r.distance,
        moving_time := r.moving_time, start_date := r.start_date, type := r.type }) }

/-- WeeklyMileageCalculator.fetchCompleteWeekData: one list call bounded to the
week; rate-limit failures are re-thrown (carrying the updated call counter),
any other failure degrades to the cached runs; on success the run-typed
results not already cached are detail-enriched through the smart cache and
appended to the cached runs. -/
def fetchCompleteWeekData (api : Api) (now : Int) (weekStart weekEnd : Int)
    (cachedRuns : List Activity) (cache : CacheState) (calls : Nat) :
    Except (ApiErr × Nat) (List Activity × CacheState × Nat) :=
  match api.getActivities calls (some (weekStart.ediv 1000)) (some (weekEnd.ediv 1000)) with
  | .error .rateLimited => .error (.rateLimited, calls + 1)
  | .error _ => .ok (cachedRuns, cache, calls + 1)
  | .ok apiActivities =>
    let apiRuns := apiActivities.filter isRun
    let cachedIds := cachedRuns.map (fun r => r.id)
    let newRuns := apiRuns.filter (fun r => decide (r.id ∉ cachedIds))
    if newRuns.isEmpty then .ok (cachedRuns, cache, calls + 1)
    else
      let out := SmartActivityCache.loadActivitiesWithPrivateNotes api now cache
        (calls + 1) newRuns
      .ok (cachedRuns ++ out.result, out.cache, out.calls)

/-- WeeklyMileageCalculator.processWeek: skip (cache hit) when a complete
aggregate is already persisted for the weekId; otherwise judge coverage of the
cached runs, fetching remote data only when coverage is insufficient, then
compute and persist the weekly aggregate with isComplete = true. -/
def processWeek (api : Api) (now : Int) (weekStart weekEnd : Int)
    (st : PassState) : Except (ApiErr × Nat) PassState :=
  let weekId := WeeklyMileageDatabase.getWeekId weekStart
  let existingData := WeeklyMileageDatabase.getWeeklyMileage st.wdb weekId
  if (existingData.map (fun d => d.isComplete)).getD false then
    .ok { st with stats := { st.stats with cacheHits := st.stats.cacheHits + 1 } }
  else
    let cachedActivities := getCachedActivitiesForWeek st.cache.db weekStart weekEnd
    let cachedRuns := cachedActivities.filter isRun
    if hasCompleteWeekCoverage now cachedRuns weekStart weekEnd then
      let weeklyData := calculateWeekData weekId weekStart weekEnd cachedRuns true
      .ok { st with
        wdb := WeeklyMileageDatabase.storeWeeklyMileage st.wdb now weeklyData
        stats := { st.stats with cacheHits := st.stats.cacheHits + 1 } }
    else
      match fetchCompleteWeekData api now weekStart weekEnd cachedRuns st.cache st.calls with
      | .error e => .error e
      | .ok (allRuns, cache', calls') =>
        let weeklyData := calculateWeekData weekId weekStart weekEnd allRuns true
        .ok { wdb := WeeklyMileageDatabase.storeWeeklyMileage st.wdb now weeklyData
              cache := cache'
              stats := { st.stats with apiCallsMade := st.stats.apiCallsMade + 1 }
              calls := calls' }

/-- The week-walking loop of calculateWeeklyMileage: up to the fuel many
weeks, stopping as soon as the rate-limit flag is set; a rate-limited error
raised by processWeek sets the flag and stops, any other error is recorded in
lastError and the walk continues with the previous week. -/
def calcLoop (api : Api) (now : Int) :
    Nat → Int → PassState → PassState
  | 0, _, st => st
  | fuel + 1, currentWeek, st =>
    if st.stats.rateLimitReached then st
    else
      let weekStart := WeeklyMileageDatabase.getWeekStart currentWeek
      let weekEnd := WeeklyMileageDatabase.getWeekEnd currentWeek
      match processWeek api now weekStart weekEnd st with
      | .ok st' =>
        calcLoop api now fuel (currentWeek - 7 * msPerDay)
          { st' with stats := { st'.stats with weeksProcessed := st'.stats.weeksProcessed + 1 } }
      | .error (e, calls') =>
        if e = ApiErr.rateLimited then
          { st with stats := { st.stats with rateLimitReached := true }, calls := calls' }
        else
          calcLoop api now fuel (currentWeek - 7 * msPerDay)
            { st with stats := { st.stats with lastError := some e }, calls := calls' }

/-- WeeklyMileageCalculator.calculateWeeklyMileage: when a calculation is
already in progress, return the current statistics unchanged; otherwise reset
the statistics and walk backward week by week starting from the most recent
complete week (the Monday before the current week's Monday), for at most
maxWeeksBack weeks (52 in the source).  Returns the final statistics, the
updated calculator state and the updated remote-call counter. -/
def calculateWeeklyMileage (api : Api) (now : Int) (maxWeeksBack : Nat)
    (cs : CalculatorState) (calls : Nat) : CalcStats × CalculatorState × Nat :=
  if cs.isCalculating then (cs.calculationStats, cs, calls)
  else
    let currentWeekStart := WeeklyMileageDatabase.getWeekStart now
    let lastCompleteWeekStart := currentWeekStart - 7 * msPerDay
    let final := calcLoop api now maxWeeksBack lastCompleteWeekStart
      { wdb := cs.wdb, cache := cs.cache, stats := initialStats, calls := calls }
    (final.stats,
     { isCalculating := false, calculationStats := final.stats,
       wdb := final.wdb, cache := final.cache },
     final.calls)

end WeeklyMileageCalculator

namespace PrivateNotesViewer

/-- Stable insertion step of the date-descending sort: a lands before the
first element whose start_date does not exceed it, i.e. after nothing it ties
with has been passed — so elements with equal keys keep their original order. -/
def insertDesc (a : Activity) : List Activity → List Activity
  | [] => [a]
  | b :: t => if b.start_date ≤ a.start_date then a :: b :: t else b :: insertDesc a t

/-- The date-descending stable sort applied by refreshData before returning a
merged result (Array.prototype.sort with comparator b.start_date minus
a.start_date; stable per the language specification, and a stable sort's
output is determined by the comparator, so insertion sort models it exactly). -/
def sortByStartDateDesc (l : List Activity) : List Activity :=
  l.foldr insertDesc []

theorem sortByStartDateDesc_cons (a : Activity) (l : List Activity) :
    sortByStartDateDesc (a :: l) = insertDesc a (sortByStartDateDesc l) := rfl

theorem mem_insertDesc {y a : Activity} {l : List Activity} :
    y ∈ insertDesc a l ↔ y = a ∨ y ∈ l := by
  induction l with
  | nil => simp [insertDesc]
  | cons b t ih =>
    by_cases hba : b.start_date ≤ a.start_date
    · rw [insertDesc, if_pos hba]
      simp [List.mem_cons]
    · rw [insertDesc, if_neg hba]
      simp [List.mem_cons, ih]
      tauto

theorem insertDesc_pairwise (a : Activity) (l : List Activity)
    (h : l.Pairwise (fun x y => y.start_date ≤ x.start_date)) :
    (insertDesc a l).Pairwise (fun x y => y.start_date ≤ x.start_date) := by
  induction l with
  | nil => simp [insertDesc]
  | cons b t ih =>
    rw [List.pairwise_cons] at h
    rcases h with ⟨hb, ht⟩
    by_cases hba : b.start_date ≤ a.start_date
    · rw [insertDesc, if_pos hba]
      refine List.pairwise_cons.mpr ⟨?_, List.pairwise_cons.mpr ⟨hb, ht⟩⟩
      intro y hy
      rcases List.mem_cons.mp hy with h | h
      · subst h; exact hba
      · exact le_trans (hb y h) hba
    · rw [insertDesc, if_neg hba]
      refine List.pairwise_cons.mpr ⟨?_, ih ht⟩
      intro y hy
      rcases mem_insertDesc.mp hy with h | h
      · subst h
        exact le_of_lt (lt_of_not_le hba)
      · exact hb y h

theorem insertDesc_perm (a : Activity) (l : List Activity) :
    (insertDesc a l).Perm (a :: l) := by
  induction l with
  | nil => exact List.Perm.refl _
  | cons b t ih =>
    by_cases hba : b.start_date ≤ a.start_date
    · rw [insertDesc, if_pos hba]
    · rw [insertDesc, if_neg hba]
      exact (List.Perm.cons b ih).trans (List.Perm.swap a b t)

/-- Start date of the most recent cached activity (the head of the cached
list sorted date-descending), none when the cache is empty. -/
def mostRecentStart (l : List Activity) : Option Int :=
  match l.map (fun a => a.start_date) with
  | [] => none
  | x :: xs => some (xs.foldl max x)

/-- Result of one refreshData invocation: the activities last handed to the
view, the updated cache state and the updated remote-call counter. -/
structure RefreshOut where
  activities : List Activity
  cache : CacheState
  calls : Nat
  deriving Repr, DecidableEq

/-- PrivateNotesViewer.refreshData: show the cached activities for the
requested range immediately; decide whether remote data is needed (always for
an explicit range, else by the recent-window heuristic); probe the connection,
issue one bounded list call, drop the ids already cached, detail-enrich the
new ones through the smart cache, and replace the view with the merged,
range-filtered, date-descending-sorted result.  The no-token demo-data path
returns an empty list (demo content is an out-of-scope UI concern). -/
def refreshData (api : Api) (now : Int) (cache : CacheState) (calls : Nat)
    (dateRange : Option (Int × Int)) : RefreshOut :=
  if !(tokenPresent cache.accessToken) then ⟨[], cache, calls⟩
  else
  let allCached := ActivityDatabase.getAllActivities cache.db
  let relevant := match dateRange with
    | some (f, t) => allCached.filter (fun a => decide (f ≤ a.start_date ∧ a.start_date ≤ t))
    | none => allCached
  let plan : Option (Int × Option Int) := match dateRange with
    | some (f, t) => some (f.ediv 1000, some (t.ediv 1000))
    | none =>
      let thirtyDaysAgo := now - 30 * msPerDay
      match mostRecentStart allCached with
      | none => some (thirtyDaysAgo.ediv 1000, none)
      | some m =>
        if m < thirtyDaysAgo then some (thirtyDaysAgo.ediv 1000, none)
        else if msPerDay < now - m then some (m.ediv 1000, none)
        else none
  match plan with
  | none => ⟨relevant, cache, calls⟩
  | some (fetchAfter, fetchBefore) =>
    if !(api.getAthlete calls) then ⟨relevant, cache, calls + 1⟩
    else
      match api.getActivities (calls + 1) (some fetchAfter) fetchBefore with
      | .error _ => ⟨relevant, cache, calls + 2⟩
      | .ok apiActivities =>
        if apiActivities.isEmpty then ⟨relevant, cache, calls + 2⟩
        else
          let cachedIds := allCached.map (fun a => a.id)
          let newActivities := apiActivities.filter (fun a => decide (a.id ∉ cachedIds))
          if newActivities.isEmpty then ⟨relevant, cache, calls + 2⟩
          else
            let out := SmartActivityCache.loadActivitiesWithPrivateNotes api now cache
              (calls + 2) newActivities
            let combined := relevant ++ out.result
            let finalActivities := match dateRange with
              | some (f, t) =>
                combined.filter (fun a => decide (f ≤ a.start_date ∧ a.start_date ≤ t))
              | none => combined
            ⟨sortByStartDateDesc finalActivities, out.cache, out.calls⟩

end PrivateNotesViewer

/-! Concrete sample values shared by the witnesses and counterexamples. -/

/-- Sample run activity with the given id and start instant. -/
def mkAct (i : String) (d : Int) : Activity :=
  { id := i, name := "act " ++ i, distance := 100, moving_time := 60, elapsed_time := 70,
    total_elevation_gain := 5, type := "Run", sport_type := "Run", start_date := d,
    private_note := some "note", has_private_note := none, private_note_length := none,
    last_updated := none, cached_at := none }

/-- Fresh cache state with the given access token and empty stores. -/
def freshCache (tok : Option String) : CacheState :=
  { accessToken := tok, memoryCache := [], db := [], apiCallCount := 0, cacheHitCount := 0 }

/-- Oracle whose detail endpoint echoes a record carrying the requested id and
whose other endpoints fail benignly. -/
def echoApi : Api :=
  { getActivity := fun _ id => .ok (mkAct id 1736200000000),
    getActivities := fun _ _ _ => .error .other,
    getAthlete := fun _ => true }

/-- C5: storing a record with put and reading it back by its id returns a
record equal to the input in all fields except the derived metadata
(has_private_note, private_note_length, cached_at, last_updated), and the
stored has_private_note flag is the boolean coercion of the input's private
note. -/
theorem c5_put_get_roundtrip (db : ActivityDatabase.Db) (now : Int) (record : Activity) :
    ActivityDatabase.getActivity (ActivityDatabase.storeActivity db now record) record.id
      = some (ActivityDatabase.enhanceActivity now record)
    ∧ stripMeta (ActivityDatabase.enhanceActivity now record) = stripMeta record
    ∧ (ActivityDatabase.enhanceActivity now record).has_private_note
      = some (jsTruthy record.private_note) := by
  refine ⟨?_, ?_, rfl⟩
  · have h := findBy_upsertBy_self (fun r : Activity => r.id)
      (ActivityDatabase.enhanceActivity now record) db
    simpa [ActivityDatabase.getActivity, ActivityDatabase.storeActivity,
      ActivityDatabase.enhanceActivity] using h
  · simp [stripMeta, ActivityDatabase.enhanceActivity]

/-- C9: the weekId key is not injective on weeks.  Monday 2024-01-01 (day
19723) and Monday 2024-12-30 (day 20087) are distinct Monday-to-Sunday weeks,
yet getWeekId renders both as 2024-01, because the calendar year of the Monday
is paired with an ISO week number that belongs to the following ISO year for
late-December Mondays; since weekId is the store's unique key, the two weeks'
aggregates overwrite each other. -/
theorem c9_weekId_not_injective :
    WeeklyMileageDatabase.getWeekId (19723 * 86400000)
      = WeeklyMileageDatabase.getWeekId (20087 * 86400000)
    ∧ WeeklyMileageDatabase.getWeekStart (19723 * 86400000)
      ≠ WeeklyMileageDatabase.getWeekStart (20087 * 86400000)
    ∧ WeeklyMileageDatabase.getWeekId (19723 * 86400000) = "2024-01" := by
  decide

/-- C10: when a calculation is already in progress, calculateWeeklyMileage
returns the current statistics immediately, issues no remote call and leaves
the calculator state and both stores untouched. -/
theorem c10_reentrancy_guard (api : Api) (now : Int) (maxWeeksBack : Nat)
    (cs : WeeklyMileageCalculator.CalculatorState) (calls : Nat)
    (h : cs.isCalculating = true) :
    WeeklyMileageCalculator.calculateWeeklyMileage api now maxWeeksBack cs calls
      = (cs.calculationStats, cs, calls) := by
  simp [WeeklyMileageCalculator.calculateWeeklyMileage, h]

/-- Concrete busy calculator state used by the C10 witness. -/
def busyCalculator : WeeklyMileageCalculator.CalculatorState :=
  { isCalculating := true, calculationStats := WeeklyMileageCalculator.initialStats,
    wdb := [], cache := freshCache (some "tok") }

/-- C10 witness: the guard theorem applied to a concrete busy calculator. -/
theorem c10_reentrancy_guard_witness :
    busyCalculator.isCalculating = true
    ∧ WeeklyMileageCalculator.calculateWeeklyMileage echoApi 1736942400000 52
        busyCalculator 0
      = (busyCalculator.calculationStats, busyCalculator, 0) :=
  ⟨rfl, c10_reentrancy_guard echoApi 1736942400000 52 busyCalculator 0 rfl⟩

namespace SmartActivityCache

/-- Well-formedness of the lookup map built by loadActivitiesWithPrivateNotes:
every binding's record carries the binding's key as its id. -/
def MapOK (m : JsMap) : Prop := ∀ k a, mapGet m k = some a → a.id = k

theorem mapOK_nil : MapOK [] := by
  intro k a h
  simp [mapGet, findBy] at h

theorem mapOK_set {m : JsMap} (hm : MapOK m) {k : String} {v : Activity}
    (hv : v.id = k) : MapOK (mapSet m k v) := by
  intro k' a h
  by_cases hk : k' = k
  · subst hk
    rw [mapGet_set_self] at h
    injection h with h
    rw [← h]; exact hv
  · rw [mapGet_set_ne _ _ _ _ hk] at h
    exact hm k' a h

theorem mapGet_isSome_set (m : JsMap) (k k' : String) (v : Activity)
    (h : (mapGet m k).isSome) : (mapGet (mapSet m k' v) k).isSome := by
  by_cases hk : k = k'
  · subst hk; simp [mapGet_set_self]
  · rw [mapGet_set_ne _ _ _ _ hk]; exact h

theorem buildMap_nil (m : JsMap) : buildMap [] m = m := rfl

theorem buildMap_cons (a : Activity) (t : List Activity) (m : JsMap) :
    buildMap (a :: t) m = buildMap t (mapSet m a.id a) := rfl

theorem buildMap_isSome (L : List Activity) :
    ∀ (m : JsMap) (k : String), (mapGet m k).isSome →
      (mapGet (buildMap L m) k).isSome := by
  induction L with
  | nil => intro m k h; exact h
  | cons a t ih =>
    intro m k h
    rw [buildMap_cons]
    exact ih _ _ (mapGet_isSome_set _ _ _ _ h)

theorem buildMap_mem_isSome (L : List Activity) :
    ∀ (m : JsMap) (r : Activity), r ∈ L →
      (mapGet (buildMap L m) r.id).isSome := by
  induction L with
  | nil => intro m r hr; cases hr
  | cons a t ih =>
    intro m r hr
    rw [buildMap_cons]
    rcases List.mem_cons.mp hr with h | h
    · subst h
      exact buildMap_isSome t _ _ (by simp [mapGet_set_self])
    · exact ih _ _ h

theorem buildMap_mapOK (L : List Activity) :
    ∀ m : JsMap, MapOK m → MapOK (buildMap L m) := by
  induction L with
  | nil => intro m hm; exact hm
  | cons a t ih =>
    intro m hm
    rw [buildMap_cons]
    exact ih _ (mapOK_set hm rfl)

theorem find_summary_isSome {summaries : List Activity} {k : String}
    (h : k ∈ summaries.map (fun a => a.id)) :
    ∃ s, summaries.find? (fun s => decide (s.id = k)) = some s ∧ s.id = k := by
  have hsome : (summaries.find? (fun s => decide (s.id = k))).isSome := by
    rw [List.find?_isSome]
    rcases List.mem_map.mp h with ⟨s, hs, hsid⟩
    exact ⟨s, hs, by simp [hsid]⟩
  rcases Option.isSome_iff_exists.mp hsome with ⟨s, hs⟩
  have := List.find?_some hs
  exact ⟨s, hs, by simpa using this⟩

theorem fetchLoop_isSome (api : Api) (now : Int) (summaries : List Activity)
    (missing : List String) :
    ∀ (st : CacheState) (calls : Nat) (m : JsMap) (k : String),
      (mapGet m k).isSome →
      (mapGet (fetchLoop api now summaries missing st calls m).2.2 k).isSome := by
  induction missing with
  | nil => intro st calls m k h; simpa [fetchLoop] using h
  | cons id rest ih =>
    intro st calls m k h
    simp only [fetchLoop]
    cases hapi : api.getActivity calls id with
    | ok a => exact ih _ _ _ _ (mapGet_isSome_set _ _ _ _ h)
    | error e =>
      cases hfind : summaries.find? (fun s => decide (s.id = id)) with
      | some s => exact ih _ _ _ _ (mapGet_isSome_set _ _ _ _ h)
      | none => exact ih _ _ _ _ h

theorem fetchLoop_covers (api : Api) (now : Int) (summaries : List Activity)
    (hid : ∀ n id a, api.getActivity n id = Except.ok a → a.id = id)
    (missing : List String) :
    ∀ (st : CacheState) (calls : Nat) (m : JsMap) (k : String),
      k ∈ missing → k ∈ summaries.map (fun a => a.id) →
      (mapGet (fetchLoop api now summaries missing st calls m).2.2 k).isSome := by
  induction missing with
  | nil => intro st calls m k hk _; cases hk
  | cons id rest ih =>
    intro st calls m k hk hks
    simp only [fetchLoop]
    cases hapi : api.getActivity calls id with
    | ok a =>
      rcases List.mem_cons.mp hk with h | h
      · subst h
        have ha : a.id = k := hid _ _ _ hapi
        refine fetchLoop_isSome api now summaries rest _ _ _ _ ?_
        rw [← ha]
        simp [mapGet_set_self]
      · exact ih _ _ _ _ h hks
    | error e =>
      rcases List.mem_cons.mp hk with h | h
      · subst h
        rcases find_summary_isSome hks with ⟨s, hs, _⟩
        rw [hs]
        exact fetchLoop_isSome api now summaries rest _ _ _ _ (by simp [mapGet_set_self])
      · cases hfind : summaries.find? (fun s => decide (s.id = id)) with
        | some s => exact ih _ _ _ _ h hks
        | none => exact ih _ _ _ _ h hks

theorem fetchLoop_mapOK (api : Api) (now : Int) (summaries : List Activity)
    (missing : List String) :
    ∀ (st : CacheState) (calls : Nat) (m : JsMap), MapOK m →
      MapOK (fetchLoop api now summaries missing st calls m).2.2 := by
  induction missing with
  | nil => intro st calls m hm; simpa [fetchLoop] using hm
  | cons id rest ih =>
    intro st calls m hm
    simp only [fetchLoop]
    cases hapi : api.getActivity calls id with
    | ok a => exact ih _ _ _ (mapOK_set hm rfl)
    | error e =>
      cases hfind : summaries.find? (fun s => decide (s.id = id)) with
      | some s =>
        have hsid : s.id = id := by simpa using List.find?_some hfind
        exact ih _ _ _ (mapOK_set hm hsid)
      | none => exact ih _ _ _ hm

theorem summaryFallback_nil (summaries : List Activity) (m : JsMap) :
    summaryFallback summaries [] m = m := rfl

theorem summaryFallback_cons (summaries : List Activity) (id : String)
    (rest : List String) (m : JsMap) :
    summaryFallback summaries (id :: rest) m
      = summaryFallback summaries rest
          (match summaries.find? (fun s => decide (s.id = id)) with
           | some s => mapSet m id s
           | none => m) := rfl

theorem summaryFallback_isSome (summaries : List Activity) (missing : List String) :
    ∀ (m : JsMap) (k : String), (mapGet m k).isSome →
      (mapGet (summaryFallback summaries missing m) k).isSome := by
  induction missing with
  | nil => intro m k h; exact h
  | cons id rest ih =>
    intro m k h
    rw [summaryFallback_cons]
    cases hfind : summaries.find? (fun s => decide (s.id = id)) with
    | some s => exact ih _ _ (mapGet_isSome_set _ _ _ _ h)
    | none => exact ih _ _ h

theorem summaryFallback_covers (summaries : List Activity) (missing : List String) :
    ∀ (m : JsMap) (k : String), k ∈ missing → k ∈ summaries.map (fun a => a.id) →
      (mapGet (summaryFallback summaries missing m) k).isSome := by
  induction missing with
  | nil => intro m k hk _; cases hk
  | cons id rest ih =>
    intro m k hk hks
    rw [summaryFallback_cons]
    rcases List.mem_cons.mp hk with h | h
    · subst h
      rcases find_summary_isSome hks with ⟨s, hs, _⟩
      rw [hs]
      exact summaryFallback_isSome summaries rest _ _ (by simp [mapGet_set_self])
    · cases hfind : summaries.find? (fun s => decide (s.id = id)) with
      | some s => exact ih _ _ h hks
      | none => exact ih _ _ h hks

theorem summaryFallback_mapOK (summaries : List Activity) (missing : List String) :
    ∀ m : JsMap, MapOK m → MapOK (summaryFallback summaries missing m) := by
  induction missing with
  | nil => intro m hm; exact hm
  | cons id rest ih =>
    intro m hm
    rw [summaryFallback_cons]
    cases hfind : summaries.find? (fun s => decide (s.id = id)) with
    | some s =>
      have hsid : s.id = id := by simpa using List.find?_some hfind
      exact ih _ (mapOK_set hm hsid)
    | none => exact ih _ hm

end SmartActivityCache

theorem getActivity_of_not_missing {db : ActivityDatabase.Db} {ids : List String}
    {id : String} (hin : id ∈ ids)
    (hnot : id ∉ ActivityDatabase.getMissingActivityIds db ids) :
    ∃ r, ActivityDatabase.getActivity db id = some r := by
  by_cases hmem : id ∈ (ActivityDatabase.getActivities db ids).map (fun a => a.id)
  · rcases List.mem_map.mp hmem with ⟨r, hr, hrid⟩
    rcases List.mem_filterMap.mp hr with ⟨id', _, hget⟩
    have hkey : r.id = id' := findBy_eq_some_key hget
    have hide : id' = id := by rw [← hkey, hrid]
    exact ⟨r, hide ▸ hget⟩
  · exact absurd (by
      simp only [ActivityDatabase.getMissingActivityIds, List.mem_filter]
      exact ⟨hin, decide_eq_true hmem⟩) hnot

theorem filter_length_lt_of_mem {α : Type} {p : α → Bool} {l : List α} {x : α}
    (hx : x ∈ l) (hpx : p x = false) :
    (l.filter p).length < l.length := by
  induction l with
  | nil => cases hx
  | cons a t ih =>
    rcases List.mem_cons.mp hx with h | h
    · subst h
      rw [List.filter_cons_of_neg (by simp [hpx])]
      exact Nat.lt_succ_of_le (List.length_filter_le p t)
    · by_cases hpa : p a = true
      · rw [List.filter_cons_of_pos hpa]
        simpa using Nat.succ_lt_succ (ih h)
      · rw [List.filter_cons_of_neg (by simpa using hpa)]
        exact Nat.lt_succ_of_lt (ih h)

theorem missing_length_lt {db : ActivityDatabase.Db} {ids : List String} {id : String}
    (hin : id ∈ ids) (hnot : id ∉ ActivityDatabase.getMissingActivityIds db ids) :
    (ActivityDatabase.getMissingActivityIds db ids).length < ids.length := by
  have hp : (decide (id ∉ (ActivityDatabase.getActivities db ids).map (fun a => a.id)))
      = false := by
    cases hd : decide (id ∉ (ActivityDatabase.getActivities db ids).map (fun a => a.id)) with
    | false => rfl
    | true =>
      exact absurd (by
        simp only [ActivityDatabase.getMissingActivityIds, List.mem_filter]
        exact ⟨hin, hd⟩) hnot
  exact filter_length_lt_of_mem hin hp

theorem filterMap_mapGet_ids (m : JsMap) (hOK : SmartActivityCache.MapOK m) :
    ∀ ids : List String, (∀ id ∈ ids, (mapGet m id).isSome) →
      (ids.filterMap (mapGet m)).map (fun a => a.id) = ids := by
  intro ids
  induction ids with
  | nil => intro _; rfl
  | cons id t ih =>
    intro hcov
    rcases Option.isSome_iff_exists.mp (hcov id (List.mem_cons_self _ _)) with ⟨a, ha⟩
    have haid : a.id = id := hOK _ _ ha
    simp [List.filterMap_cons, ha, haid,
      ih (fun i hi => hcov i (List.mem_cons_of_mem _ hi))]

open SmartActivityCache

/-- C1: loadActivitiesWithPrivateNotes returns, position for position, records
bearing exactly the ids of the input summaries in the original input order (so
the id collection of the output equals that of the input and nothing is
dropped), no matter how many individual detail fetches fail — under the remote
interface contract that a successful detail fetch returns a record carrying
the requested id. -/
theorem c1_load_preserves_ids (api : Api) (now : Int) (st : CacheState) (calls : Nat)
    (summaries : List Activity)
    (hid : ∀ n id a, api.getActivity n id = Except.ok a → a.id = id) :
    ((loadActivitiesWithPrivateNotes api now st calls summaries).result.map (fun a => a.id))
      = summaries.map (fun a => a.id) := by
  by_cases hemp : summaries.isEmpty
  · have h0 : summaries = [] := by simpa using hemp
    subst h0
    simp [loadActivitiesWithPrivateNotes]
  · have hemp' : summaries.isEmpty = false := by simpa using hemp
    have hm0OK : MapOK (buildMap (cachedForLoad st.db (summaries.map (fun a => a.id))
        (ActivityDatabase.getMissingActivityIds st.db (summaries.map (fun a => a.id)))) []) :=
      buildMap_mapOK _ _ mapOK_nil
    have hm0cov : ∀ id ∈ summaries.map (fun a => a.id),
        id ∉ ActivityDatabase.getMissingActivityIds st.db (summaries.map (fun a => a.id)) →
        (mapGet (buildMap (cachedForLoad st.db (summaries.map (fun a => a.id))
          (ActivityDatabase.getMissingActivityIds st.db (summaries.map (fun a => a.id)))) [])
          id).isSome := by
      intro id hin hnot
      rcases getActivity_of_not_missing hin hnot with ⟨r, hr⟩
      have hrid : r.id = id := findBy_eq_some_key hr
      have hlt := missing_length_lt hin hnot
      have hrmem : r ∈ cachedForLoad st.db (summaries.map (fun a => a.id))
          (ActivityDatabase.getMissingActivityIds st.db (summaries.map (fun a => a.id))) := by
        rw [cachedForLoad, if_pos hlt]
        exact List.mem_filterMap.mpr ⟨id, List.mem_filter.mpr ⟨hin, decide_eq_true hnot⟩, hr⟩
      have hsome := buildMap_mem_isSome _ ([] : JsMap) r hrmem
      rwa [hrid] at hsome
    simp only [loadActivitiesWithPrivateNotes, hemp', Bool.false_eq_true, if_false]
    split
    · next htok =>
      refine filterMap_mapGet_ids _ (fetchLoop_mapOK api now summaries _ _ _ _ hm0OK) _ ?_
      intro id hin
      by_cases hmiss : id ∈ ActivityDatabase.getMissingActivityIds st.db
          (summaries.map (fun a => a.id))
      · exact fetchLoop_covers api now summaries hid _ _ _ _ _ hmiss hin
      · exact fetchLoop_isSome api now summaries _ _ _ _ _ (hm0cov id hin hmiss)
    · next htok =>
      refine filterMap_mapGet_ids _ (summaryFallback_mapOK summaries _ _ hm0OK) _ ?_
      intro id hin
      by_cases hmiss : id ∈ ActivityDatabase.getMissingActivityIds st.db
          (summaries.map (fun a => a.id))
      · exact summaryFallback_covers summaries _ _ _ hmiss hin
      · exact summaryFallback_isSome summaries _ _ _ (hm0cov id hin hmiss)

/-- Api oracle whose first detail call fails and whose later detail calls echo
a record carrying the requested id. -/
def flakyApi : Api :=
  { getActivity := fun n id =>
      if n = 0 then .error .rateLimited else .ok (mkAct id 1736200000000),
    getActivities := fun _ _ _ => .error .other,
    getAthlete := fun _ => true }

/-- C1 witness: the id-preservation theorem applied to a concrete two-summary
load whose first detail fetch fails (falling back to the summary record). -/
theorem c1_load_preserves_ids_witness :
    ((loadActivitiesWithPrivateNotes flakyApi 5 (freshCache (some "tok")) 0
        [mkAct "a" 10, mkAct "b" 20]).result.map (fun a => a.id))
      = [mkAct "a" 10, mkAct "b" 20].map (fun a => a.id)
    ∧ flakyApi.getActivity 0 "a" = Except.error ApiErr.rateLimited :=
  ⟨c1_load_preserves_ids flakyApi 5 (freshCache (some "tok")) 0
      [mkAct "a" 10, mkAct "b" 20]
      (by
        intro n id a h
        by_cases hn : n = 0
        · simp [flakyApi, hn] at h
        · simp [flakyApi, hn] at h
          rw [← h]
          rfl),
   rfl⟩

theorem summaryFallback_get (summaries : List Activity) (missing : List String) :
    ∀ (m : JsMap) (k : String),
      mapGet (summaryFallback summaries missing m) k
        = if k ∈ missing then
            (match summaries.find? (fun s => decide (s.id = k)) with
             | some s => some s
             | none => mapGet m k)
          else mapGet m k := by
  induction missing with
  | nil => intro m k; simp [summaryFallback_nil]
  | cons id rest ih =>
    intro m k
    rw [summaryFallback_cons]
    by_cases hkr : k ∈ rest
    · rw [ih _ k, if_pos hkr, if_pos (List.mem_cons_of_mem _ hkr)]
      cases hf : summaries.find? (fun s => decide (s.id = k)) with
      | some s => rfl
      | none =>
        cases hfid : summaries.find? (fun s => decide (s.id = id)) with
        | some s =>
          by_cases hki : k = id
          · subst hki
            rw [hfid] at hf
            cases hf
          · exact mapGet_set_ne _ _ _ _ hki
        | none => rfl
    · by_cases hki : k = id
      · subst hki
        rw [ih _ k, if_neg hkr, if_pos (List.mem_cons_self _ _)]
        cases hf : summaries.find? (fun s => decide (s.id = k)) with
        | some s => exact mapGet_set_self _ _ _
        | none => rfl
      · rw [ih _ k, if_neg hkr,
          if_neg (fun h => (List.mem_cons.mp h).elim hki hkr)]
        cases hfid : summaries.find? (fun s => decide (s.id = id)) with
        | some s => exact mapGet_set_ne _ _ _ _ hki
        | none => rfl

theorem nodup_find_roundtrip (summaries : List Activity) :
    (summaries.map (fun a => a.id)).Nodup →
    (summaries.map (fun a => a.id)).filterMap
      (fun id => summaries.find? (fun s => decide (s.id = id))) = summaries := by
  induction summaries with
  | nil => intro _; rfl
  | cons s rest ih =>
    intro h
    rw [List.map_cons, List.nodup_cons] at h
    rcases h with ⟨hs, hrest⟩
    have hfs : (s :: rest).find? (fun x => decide (x.id = s.id)) = some s := by
      simp [List.find?]
    have hcong : ∀ id ∈ rest.map (fun a => a.id),
        (s :: rest).find? (fun x => decide (x.id = id))
          = rest.find? (fun x => decide (x.id = id)) := by
      intro id hid
      have hne : s.id ≠ id := fun he => hs (he ▸ hid)
      rw [List.find?_cons_of_neg]
      simpa using hne
    rw [List.map_cons, List.filterMap_cons]
    simp only [hfs]
    rw [List.filterMap_congr hcong, ih hrest]

/-- Two summary records sharing the id 1 but with different names. -/
def dupA : Activity := { mkAct "1" 10 with name := "A" }

/-- Second record with the duplicated id. -/
def dupB : Activity := { mkAct "1" 10 with name := "B" }

/-- C7 counterexample: with no token and an empty store, an input whose two
summaries share an id is not returned unchanged — both positions come back as
the first record bearing that id. -/
theorem c7_counterexample :
    (loadActivitiesWithPrivateNotes echoApi 0 (freshCache none) 0 [dupA, dupB]).result
      ≠ [dupA, dupB]
    ∧ (loadActivitiesWithPrivateNotes echoApi 0 (freshCache none) 0 [dupA, dupB]).result
      = [dupA, dupA] := by
  decide

/-- C7 amended: with no access token, none of the summaries' ids present in
the persistent store, and pairwise-distinct summary ids, the load issues zero
remote calls and returns exactly the input records unchanged (with duplicate
ids, each position is instead served by the first record bearing its id). -/
theorem c7_no_token_returns_summaries (api : Api) (now : Int) (st : CacheState)
    (calls : Nat) (summaries : List Activity)
    (htok : tokenPresent st.accessToken = false)
    (hmiss : ∀ id ∈ summaries.map (fun a => a.id),
      ActivityDatabase.getActivity st.db id = none)
    (hnodup : (summaries.map (fun a => a.id)).Nodup) :
    (loadActivitiesWithPrivateNotes api now st calls summaries).result = summaries
    ∧ (loadActivitiesWithPrivateNotes api now st calls summaries).calls = calls
    ∧ (loadActivitiesWithPrivateNotes api now st calls summaries).cache.apiCallCount
        = st.apiCallCount := by
  by_cases hemp : summaries.isEmpty
  · have h0 : summaries = [] := by simpa using hemp
    subst h0
    simp [loadActivitiesWithPrivateNotes]
  · have hemp' : summaries.isEmpty = false := by simpa using hemp
    have hmissing : ActivityDatabase.getMissingActivityIds st.db
        (summaries.map (fun a => a.id)) = summaries.map (fun a => a.id) := by
      have h1 : ActivityDatabase.getActivities st.db (summaries.map (fun a => a.id)) = [] :=
        List.filterMap_eq_nil_iff.mpr hmiss
      simp only [ActivityDatabase.getMissingActivityIds, h1]
      exact List.filter_eq_self.mpr (fun a _ => by simp)
    have hcfl : cachedForLoad st.db (summaries.map (fun a => a.id))
        (summaries.map (fun a => a.id)) = [] := by
      rw [cachedForLoad, if_neg (lt_irrefl _)]
    have hpoint : ∀ id ∈ summaries.map (fun a => a.id),
        mapGet (summaryFallback summaries (summaries.map (fun a => a.id)) []) id
          = summaries.find? (fun s => decide (s.id = id)) := by
      intro id hid
      rw [summaryFallback_get, if_pos hid]
      cases hf : summaries.find? (fun s => decide (s.id = id)) with
      | some s => rfl
      | none => simp [mapGet, findBy]
    simp only [loadActivitiesWithPrivateNotes, hemp', Bool.false_eq_true, if_false,
      hmissing, hcfl, htok, Bool.false_and, buildMap_nil]
    refine ⟨?_, trivial, trivial⟩
    rw [List.filterMap_congr hpoint, nodup_find_roundtrip summaries hnodup]

/-- C7 witness: the amended statement at a concrete input — two summaries with
distinct ids, no token, empty store — returns the input unchanged with zero
remote calls. -/
theorem c7_no_token_returns_summaries_witness :
    (loadActivitiesWithPrivateNotes echoApi 0 (freshCache none) 0
      [mkAct "1" 10, mkAct "2" 20]).result = [mkAct "1" 10, mkAct "2" 20]
    ∧ (loadActivitiesWithPrivateNotes echoApi 0 (freshCache none) 0
      [mkAct "1" 10, mkAct "2" 20]).calls = 0
    ∧ (loadActivitiesWithPrivateNotes echoApi 0 (freshCache none) 0
      [mkAct "1" 10, mkAct "2" 20]).cache.apiCallCount
        = (freshCache none).apiCallCount :=
  c7_no_token_returns_summaries echoApi 0 (freshCache none) 0
    [mkAct "1" 10, mkAct "2" 20] (by decide) (by decide) (by decide)

theorem stripMeta_enhance (now : Int) (a : Activity) :
    stripMeta (ActivityDatabase.enhanceActivity now a) = stripMeta a := by
  simp [stripMeta, ActivityDatabase.enhanceActivity]

theorem fetchLoop_counts (api : Api) (now : Int) (summaries : List Activity)
    (missing : List String) :
    ∀ (st : CacheState) (calls : Nat) (m : JsMap),
      (fetchLoop api now summaries missing st calls m).2.1 = calls + missing.length
      ∧ (fetchLoop api now summaries missing st calls m).1.apiCallCount
          = st.apiCallCount + missing.length
      ∧ (fetchLoop api now summaries missing st calls m).1.accessToken = st.accessToken := by
  induction missing with
  | nil => intro st calls m; simp [fetchLoop]
  | cons id rest ih =>
    intro st calls m
    simp only [fetchLoop]
    cases hapi : api.getActivity calls id with
    | ok a =>
      rcases ih (SmartActivityCache.storeActivity
          { st with apiCallCount := st.apiCallCount + 1 } now a) (calls + 1)
          (mapSet m a.id a) with ⟨h1, h2, h3⟩
      refine ⟨?_, ?_, ?_⟩
      · rw [h1, List.length_cons]; omega
      · rw [h2]
        have hproj : (SmartActivityCache.storeActivity
            { st with apiCallCount := st.apiCallCount + 1 } now a).apiCallCount
            = st.apiCallCount + 1 := rfl
        rw [hproj, List.length_cons]; omega
      · rw [h3]; rfl
    | error e =>
      cases hfind : summaries.find? (fun s => decide (s.id = id)) with
      | some s =>
        rcases ih { st with apiCallCount := st.apiCallCount + 1 } (calls + 1)
          (mapSet m id s) with ⟨h1, h2, h3⟩
        refine ⟨?_, ?_, ?_⟩
        · rw [h1, List.length_cons]; omega
        · rw [h2, List.length_cons]
          show st.apiCallCount + 1 + rest.length = st.apiCallCount + (rest.length + 1)
          omega
        · rw [h3]
      | none =>
        rcases ih { st with apiCallCount := st.apiCallCount + 1 } (calls + 1) m
          with ⟨h1, h2, h3⟩
        refine ⟨?_, ?_, ?_⟩
        · rw [h1, List.length_cons]; omega
        · rw [h2, List.length_cons]
          show st.apiCallCount + 1 + rest.length = st.apiCallCount + (rest.length + 1)
          omega
        · rw [h3]

theorem fetchLoop_char (api : Api) (now : Int) (summaries : List Activity)
    (F : String → Activity) (missing : List String)
    (hok : ∀ id ∈ missing, ∀ n, api.getActivity n id = Except.ok (F id))
    (hFid : ∀ id ∈ missing, (F id).id = id) :
    ∀ (st : CacheState) (calls : Nat) (m : JsMap),
      (∀ k, mapGet (fetchLoop api now summaries missing st calls m).2.2 k
          = if k ∈ missing then some (F k) else mapGet m k)
      ∧ (∀ k, ActivityDatabase.getActivity
            (fetchLoop api now summaries missing st calls m).1.db k
          = if k ∈ missing then some (ActivityDatabase.enhanceActivity now (F k))
            else ActivityDatabase.getActivity st.db k) := by
  induction missing with
  | nil => intro st calls m; simp [fetchLoop]
  | cons id rest ih =>
    intro st calls m
    have hok' : ∀ i ∈ rest, ∀ n, api.getActivity n i = Except.ok (F i) :=
      fun i hi => hok i (List.mem_cons_of_mem _ hi)
    have hFid' : ∀ i ∈ rest, (F i).id = i :=
      fun i hi => hFid i (List.mem_cons_of_mem _ hi)
    have hid0 : (F id).id = id := hFid id (List.mem_cons_self _ _)
    simp only [fetchLoop, hok id (List.mem_cons_self _ _) calls]
    rcases ih hok' hFid' (SmartActivityCache.storeActivity
        { st with apiCallCount := st.apiCallCount + 1 } now (F id)) (calls + 1)
        (mapSet m (F id).id (F id)) with ⟨ihm, ihd⟩
    constructor
    · intro k
      rw [ihm k]
      by_cases hkr : k ∈ rest
      · rw [if_pos hkr, if_pos (List.mem_cons_of_mem _ hkr)]
      · by_cases hki : k = id
        · subst hki
          rw [if_neg hkr, if_pos (List.mem_cons_self _ _), hid0, mapGet_set_self]
        · rw [if_neg hkr, if_neg (fun h => (List.mem_cons.mp h).elim hki hkr)]
          rw [hid0]
          exact mapGet_set_ne _ _ _ _ hki
    · intro k
      rw [ihd k]
      by_cases hkr : k ∈ rest
      · rw [if_pos hkr, if_pos (List.mem_cons_of_mem _ hkr)]
      · by_cases hki : k = id
        · subst hki
          rw [if_neg hkr, if_pos (List.mem_cons_self _ _)]
          show ActivityDatabase.getActivity
            (ActivityDatabase.storeActivity st.db now (F k)) k = _
          unfold ActivityDatabase.getActivity ActivityDatabase.storeActivity
          have := findBy_upsertBy_self (fun r : Activity => r.id)
            (ActivityDatabase.enhanceActivity now (F k)) st.db
          have hkey : (ActivityDatabase.enhanceActivity now (F k)).id = k := by
            simpa [ActivityDatabase.enhanceActivity] using hid0
          rwa [hkey] at this
        · rw [if_neg hkr, if_neg (fun h => (List.mem_cons.mp h).elim hki hkr)]
          show ActivityDatabase.getActivity
            (ActivityDatabase.storeActivity st.db now (F id)) k = _
          unfold ActivityDatabase.getActivity ActivityDatabase.storeActivity
          refine findBy_upsertBy_ne _ _ _ _ ?_
          simpa [ActivityDatabase.enhanceActivity, hid0] using hki

theorem buildMap_get_not_mem (L : List Activity) :
    ∀ (m : JsMap) (k : String), (∀ r ∈ L, r.id ≠ k) →
      mapGet (buildMap L m) k = mapGet m k := by
  induction L with
  | nil => intro m k _; rfl
  | cons a t ih =>
    intro m k h
    rw [buildMap_cons, ih _ _ (fun r hr => h r (List.mem_cons_of_mem _ hr)),
      mapGet_set_ne _ _ _ _ (fun he => h a (List.mem_cons_self _ _) he.symm)]

theorem buildMap_get_unique (L : List Activity) (v : Activity) :
    ∀ (m : JsMap) (k : String),
      (∀ r ∈ L, r.id = k → r = v) → (∃ r ∈ L, r.id = k) →
      mapGet (buildMap L m) k = some v := by
  induction L with
  | nil => intro m k _ h; rcases h with ⟨r, hr, _⟩; cases hr
  | cons a t ih =>
    intro m k huniq hex
    rw [buildMap_cons]
    by_cases hex' : ∃ r ∈ t, r.id = k
    · exact ih _ _ (fun r hr => huniq r (List.mem_cons_of_mem _ hr)) hex'
    · rcases hex with ⟨r, hr, hrk⟩
      rcases List.mem_cons.mp hr with h | h
      · subst h
        have hv : r = v := huniq r (List.mem_cons_self _ _) hrk
        rw [buildMap_get_not_mem t _ _ (fun x hx hxk => hex' ⟨x, hx, hxk⟩), ← hrk,
          mapGet_set_self, hv]
      · exact absurd ⟨r, h, hrk⟩ hex'

theorem getMissing_eq_nil {db : ActivityDatabase.Db} {ids : List String}
    (h : ∀ id ∈ ids, (ActivityDatabase.getActivity db id).isSome) :
    ActivityDatabase.getMissingActivityIds db ids = [] := by
  unfold ActivityDatabase.getMissingActivityIds
  rw [List.filter_eq_nil_iff]
  intro id hid
  rcases Option.isSome_iff_exists.mp (h id hid) with ⟨r, hr⟩
  have hrid : r.id = id := findBy_eq_some_key hr
  have hmem : id ∈ (ActivityDatabase.getActivities db ids).map (fun a => a.id) :=
    List.mem_map.mpr ⟨r, List.mem_filterMap.mpr ⟨id, hid, hr⟩, hrid⟩
  simp [hmem]

theorem filterMap_stripMeta_congr (ids : List String) (g1 g2 : String → Option Activity)
    (h : ∀ id ∈ ids, Option.map stripMeta (g2 id) = Option.map stripMeta (g1 id)
        ∧ (g1 id).isSome) :
    (ids.filterMap g2).map stripMeta = (ids.filterMap g1).map stripMeta := by
  induction ids with
  | nil => rfl
  | cons id t ih =>
    rcases h id (List.mem_cons_self _ _) with ⟨heq, hs1⟩
    rcases Option.isSome_iff_exists.mp hs1 with ⟨a1, ha1⟩
    have hs2 : ∃ a2, g2 id = some a2 ∧ stripMeta a2 = stripMeta a1 := by
      rw [ha1] at heq
      cases hg2 : g2 id with
      | none => rw [hg2] at heq; cases heq
      | some a2 =>
        rw [hg2] at heq
        exact ⟨a2, rfl, by injection heq⟩
    rcases hs2 with ⟨a2, ha2, hstrip⟩
    simp only [List.filterMap_cons, ha1, ha2, List.map_cons, hstrip]
    rw [ih (fun i hi => h i (List.mem_cons_of_mem _ hi))]

/-- Two successive identical loads against the same oracle: the pair of
outcomes (first call, second call started from the first call's state). -/
def loadTwice (api : Api) (now now2 : Int) (st : CacheState) (calls : Nat)
    (summaries : List Activity) : LoadOut × LoadOut :=
  let o1 := loadActivitiesWithPrivateNotes api now st calls summaries
  (o1, loadActivitiesWithPrivateNotes api now2 o1.cache o1.calls summaries)

/-- C2 counterexample: one summary, empty store, token present, a successful
detail fetch, no remote change.  The second call issues zero further remote
calls, yet its result is not byte-identical to the first call's: the first
call returned the raw remote record while the second returns the persisted
record, which carries the derived cache-metadata fields. -/
theorem c2_counterexample :
    (loadTwice echoApi 5 5 (freshCache (some "tok")) 0 [mkAct "a" 10]).2.result
      ≠ (loadTwice echoApi 5 5 (freshCache (some "tok")) 0 [mkAct "a" 10]).1.result
    ∧ (loadTwice echoApi 5 5 (freshCache (some "tok")) 0 [mkAct "a" 10]).2.calls
      = (loadTwice echoApi 5 5 (freshCache (some "tok")) 0 [mkAct "a" 10]).1.calls := by
  decide

theorem load_no_missing (api : Api) (now : Int) (st : CacheState) (calls : Nat)
    (summaries : List Activity) (hemp' : summaries.isEmpty = false)
    (hm : ActivityDatabase.getMissingActivityIds st.db (summaries.map (fun a => a.id))
      = []) :
    loadActivitiesWithPrivateNotes api now st calls summaries
      = ⟨(summaries.map (fun a => a.id)).filterMap
           (mapGet (buildMap (cachedForLoad st.db (summaries.map (fun a => a.id)) []) [])),
         { st with memoryCache :=
             (buildMap (cachedForLoad st.db (summaries.map (fun a => a.id)) [])
               st.memoryCache) },
         calls⟩ := by
  simp [loadActivitiesWithPrivateNotes, hemp', hm, summaryFallback_nil]

theorem load_token_missing (api : Api) (now : Int) (st : CacheState) (calls : Nat)
    (summaries : List Activity) (hemp' : summaries.isEmpty = false)
    (hb : (tokenPresent st.accessToken
        && !(ActivityDatabase.getMissingActivityIds st.db
              (summaries.map (fun a => a.id))).isEmpty) = true) :
    loadActivitiesWithPrivateNotes api now st calls summaries
      = ⟨(summaries.map (fun a => a.id)).filterMap
           (mapGet (fetchLoop api now summaries
              (ActivityDatabase.getMissingActivityIds st.db
                (summaries.map (fun a => a.id)))
              { st with memoryCache :=
                  (buildMap (cachedForLoad st.db (summaries.map (fun a => a.id))
                    (ActivityDatabase.getMissingActivityIds st.db
                      (summaries.map (fun a => a.id)))) st.memoryCache) }
              calls
              (buildMap (cachedForLoad st.db (summaries.map (fun a => a.id))
                (ActivityDatabase.getMissingActivityIds st.db
                  (summaries.map (fun a => a.id)))) [])).2.2),
         (fetchLoop api now summaries
            (ActivityDatabase.getMissingActivityIds st.db
              (summaries.map (fun a => a.id)))
            { st with memoryCache :=
                (buildMap (cachedForLoad st.db (summaries.map (fun a => a.id))
                  (ActivityDatabase.getMissingActivityIds st.db
                    (summaries.map (fun a => a.id)))) st.memoryCache) }
            calls
            (buildMap (cachedForLoad st.db (summaries.map (fun a => a.id))
              (ActivityDatabase.getMissingActivityIds st.db
                (summaries.map (fun a => a.id)))) [])).1,
         (fetchLoop api now summaries
            (ActivityDatabase.getMissingActivityIds st.db
              (summaries.map (fun a => a.id)))
            { st with memoryCache :=
                (buildMap (cachedForLoad st.db (summaries.map (fun a => a.id))
                  (ActivityDatabase.getMissingActivityIds st.db
                    (summaries.map (fun a => a.id)))) st.memoryCache) }
            calls
            (buildMap (cachedForLoad st.db (summaries.map (fun a => a.id))
              (ActivityDatabase.getMissingActivityIds st.db
                (summaries.map (fun a => a.id)))) [])).2.1⟩ := by
  simp [loadActivitiesWithPrivateNotes, hemp', hb]

theorem buildMap_cachedForLoad_get (db : ActivityDatabase.Db) (ids : List String)
    (missing : List String) (id : String)
    (hfilter : id ∈ ids.filter (fun i => decide (i ∉ missing)))
    (hlt : missing.length < ids.length)
    {r : Activity} (hr : ActivityDatabase.getActivity db id = some r) :
    mapGet (buildMap (cachedForLoad db ids missing) []) id = some r := by
  rw [cachedForLoad, if_pos hlt]
  apply buildMap_get_unique
  · intro x hx hxk
    rcases List.mem_filterMap.mp hx with ⟨id', hid', hg⟩
    have hxid : x.id = id' := findBy_eq_some_key hg
    rw [hxk] at hxid
    rw [← hxid] at hg
    rw [hr] at hg
    injection hg with hg
    exact hg.symm
  · exact ⟨r, List.mem_filterMap.mpr ⟨id, hfilter, hr⟩, findBy_eq_some_key hr⟩

set_option maxHeartbeats 2000000 in
/-- C2 amended: with a token present, an unchanged remote (the detail endpoint
is a fixed function F of the id, every fetch succeeding with a record carrying
the requested id), a second identical load issues zero further remote calls
(neither the global call counter nor the session API-call counter moves) and
returns records identical to the first call's up to the derived cache-metadata
fields: the first call returns raw remote records for the fetched ids while
the second serves the persisted copies, which additionally carry
has_private_note, private_note_length, last_updated and cached_at. -/
theorem c2_idempotent_up_to_metadata (api : Api) (now now2 : Int) (st : CacheState)
    (calls : Nat) (summaries : List Activity)
    (htok : tokenPresent st.accessToken = true)
    (F : String → Activity)
    (hconst : ∀ n id, api.getActivity n id = Except.ok (F id))
    (hFid : ∀ id, (F id).id = id) :
    (loadTwice api now now2 st calls summaries).2.calls
      = (loadTwice api now now2 st calls summaries).1.calls
    ∧ (loadTwice api now now2 st calls summaries).2.cache.apiCallCount
      = (loadTwice api now now2 st calls summaries).1.cache.apiCallCount
    ∧ (loadTwice api now now2 st calls summaries).2.result.map stripMeta
      = (loadTwice api now now2 st calls summaries).1.result.map stripMeta := by
  by_cases hemp : summaries.isEmpty
  · have h0 : summaries = [] := by simpa using hemp
    subst h0
    simp [loadTwice, loadActivitiesWithPrivateNotes]
  · have hemp' : summaries.isEmpty = false := by simpa using hemp
    have hlen : 0 < (summaries.map (fun a => a.id)).length := by
      simp only [List.length_map]
      cases summaries with
      | nil => simp at hemp'
      | cons a t => simp
    by_cases hm1 : ActivityDatabase.getMissingActivityIds st.db
        (summaries.map (fun a => a.id)) = []
    · have h1 := load_no_missing api now st calls summaries hemp' hm1
      have h2 := load_no_missing api now2
        { st with memoryCache :=
            (buildMap (cachedForLoad st.db (summaries.map (fun a => a.id)) [])
              st.memoryCache) } calls summaries hemp' hm1
      refine ⟨?_, ?_, ?_⟩ <;> simp only [loadTwice, h1, h2]
    · have hb : (tokenPresent st.accessToken
          && !(ActivityDatabase.getMissingActivityIds st.db
                (summaries.map (fun a => a.id))).isEmpty) = true := by
        rw [htok]
        simpa [List.isEmpty_iff] using hm1
      have h1 := load_token_missing api now st calls summaries hemp' hb
      obtain ⟨hchar_m, hchar_db⟩ := fetchLoop_char api now summaries F
        (ActivityDatabase.getMissingActivityIds st.db (summaries.map (fun a => a.id)))
        (fun id _ n => hconst n id) (fun id _ => hFid id)
        { st with memoryCache :=
            (buildMap (cachedForLoad st.db (summaries.map (fun a => a.id))
              (ActivityDatabase.getMissingActivityIds st.db
                (summaries.map (fun a => a.id)))) st.memoryCache) }
        calls
        (buildMap (cachedForLoad st.db (summaries.map (fun a => a.id))
          (ActivityDatabase.getMissingActivityIds st.db
            (summaries.map (fun a => a.id)))) [])
      have hall : ∀ id ∈ summaries.map (fun a => a.id),
          (ActivityDatabase.getActivity
            (fetchLoop api now summaries
              (ActivityDatabase.getMissingActivityIds st.db
                (summaries.map (fun a => a.id)))
              { st with memoryCache :=
                  (buildMap (cachedForLoad st.db (summaries.map (fun a => a.id))
                    (ActivityDatabase.getMissingActivityIds st.db
                      (summaries.map (fun a => a.id)))) st.memoryCache) }
              calls
              (buildMap (cachedForLoad st.db (summaries.map (fun a => a.id))
                (ActivityDatabase.getMissingActivityIds st.db
                  (summaries.map (fun a => a.id)))) [])).1.db id).isSome := by
        intro id hin
        rw [hchar_db id]
        by_cases hidm : id ∈ ActivityDatabase.getMissingActivityIds st.db
            (summaries.map (fun a => a.id))
        · simp [hidm]
        · rw [if_neg hidm]
          rcases getActivity_of_not_missing hin hidm with ⟨r, hr⟩
          simp [hr]
      have hm2 := getMissing_eq_nil hall
      have h2 := load_no_missing api now2
        (fetchLoop api now summaries
          (ActivityDatabase.getMissingActivityIds st.db
            (summaries.map (fun a => a.id)))
          { st with memoryCache :=
              (buildMap (cachedForLoad st.db (summaries.map (fun a => a.id))
                (ActivityDatabase.getMissingActivityIds st.db
                  (summaries.map (fun a => a.id)))) st.memoryCache) }
          calls
          (buildMap (cachedForLoad st.db (summaries.map (fun a => a.id))
            (ActivityDatabase.getMissingActivityIds st.db
              (summaries.map (fun a => a.id)))) [])).1
        (fetchLoop api now summaries
          (ActivityDatabase.getMissingActivityIds st.db
            (summaries.map (fun a => a.id)))
          { st with memoryCache :=
              (buildMap (cachedForLoad st.db (summaries.map (fun a => a.id))
                (ActivityDatabase.getMissingActivityIds st.db
                  (summaries.map (fun a => a.id)))) st.memoryCache) }
          calls
          (buildMap (cachedForLoad st.db (summaries.map (fun a => a.id))
            (ActivityDatabase.getMissingActivityIds st.db
              (summaries.map (fun a => a.id)))) [])).2.1
        summaries hemp' hm2
      refine ⟨?_, ?_, ?_⟩
      · show (loadActivitiesWithPrivateNotes api now2
            (loadActivitiesWithPrivateNotes api now st calls summaries).cache
            (loadActivitiesWithPrivateNotes api now st calls summaries).calls
            summaries).calls
          = (loadActivitiesWithPrivateNotes api now st calls summaries).calls
        simp only [h1, h2]
      · show (loadActivitiesWithPrivateNotes api now2
            (loadActivitiesWithPrivateNotes api now st calls summaries).cache
            (loadActivitiesWithPrivateNotes api now st calls summaries).calls
            summaries).cache.apiCallCount
          = (loadActivitiesWithPrivateNotes api now st calls
              summaries).cache.apiCallCount
        simp only [h1, h2]
      · show (loadActivitiesWithPrivateNotes api now2
            (loadActivitiesWithPrivateNotes api now st calls summaries).cache
            (loadActivitiesWithPrivateNotes api now st calls summaries).calls
            summaries).result.map stripMeta
          = (loadActivitiesWithPrivateNotes api now st calls
              summaries).result.map stripMeta
        simp only [h1, h2]
        apply filterMap_stripMeta_congr
        intro id hin
        by_cases hidm : id ∈ ActivityDatabase.getMissingActivityIds st.db
            (summaries.map (fun a => a.id))
        · constructor
          · rw [hchar_m id, if_pos hidm]
            have hr2 : ActivityDatabase.getActivity
                (fetchLoop api now summaries
                  (ActivityDatabase.getMissingActivityIds st.db
                    (summaries.map (fun a => a.id)))
                  { st with memoryCache :=
                      (buildMap (cachedForLoad st.db (summaries.map (fun a => a.id))
                        (ActivityDatabase.getMissingActivityIds st.db
                          (summaries.map (fun a => a.id)))) st.memoryCache) }
                  calls
                  (buildMap (cachedForLoad st.db (summaries.map (fun a => a.id))
                    (ActivityDatabase.getMissingActivityIds st.db
                      (summaries.map (fun a => a.id)))) [])).1.db id
                = some (ActivityDatabase.enhanceActivity now (F id)) := by
              rw [hchar_db id, if_pos hidm]
            rw [buildMap_cachedForLoad_get _ _ [] id
              (List.mem_filter.mpr ⟨hin, by simp⟩) (by simpa using hlen) hr2]
            simp [stripMeta_enhance]
          · rw [hchar_m id, if_pos hidm]
            rfl
        · rcases getActivity_of_not_missing hin hidm with ⟨r, hr⟩
          have hg1 : mapGet (fetchLoop api now summaries
              (ActivityDatabase.getMissingActivityIds st.db
                (summaries.map (fun a => a.id)))
              { st with memoryCache :=
                  (buildMap (cachedForLoad st.db (summaries.map (fun a => a.id))
                    (ActivityDatabase.getMissingActivityIds st.db
                      (summaries.map (fun a => a.id)))) st.memoryCache) }
              calls
              (buildMap (cachedForLoad st.db (summaries.map (fun a => a.id))
                (ActivityDatabase.getMissingActivityIds st.db
                  (summaries.map (fun a => a.id)))) [])).2.2 id = some r := by
            rw [hchar_m id, if_neg hidm]
            exact buildMap_cachedForLoad_get _ _ _ id
              (List.mem_filter.mpr ⟨hin, decide_eq_true hidm⟩)
              (missing_length_lt hin hidm) hr
          have hr2 : ActivityDatabase.getActivity
              (fetchLoop api now summaries
                (ActivityDatabase.getMissingActivityIds st.db
                  (summaries.map (fun a => a.id)))
                { st with memoryCache :=
                    (buildMap (cachedForLoad st.db (summaries.map (fun a => a.id))
                      (ActivityDatabase.getMissingActivityIds st.db
                        (summaries.map (fun a => a.id)))) st.memoryCache) }
                calls
                (buildMap (cachedForLoad st.db (summaries.map (fun a => a.id))
                  (ActivityDatabase.getMissingActivityIds st.db
                    (summaries.map (fun a => a.id)))) [])).1.db id = some r := by
            rw [hchar_db id, if_neg hidm]
            exact hr
          constructor
          · rw [hg1,
              buildMap_cachedForLoad_get _ _ [] id
                (List.mem_filter.mpr ⟨hin, by simp⟩) (by simpa using hlen) hr2]
          · rw [hg1]
            rfl

/-- C2 witness: the amended idempotence theorem applied to a concrete
two-summary double load against a constant oracle. -/
theorem c2_idempotent_up_to_metadata_witness :
    (loadTwice echoApi 5 7 (freshCache (some "tok")) 0
        [mkAct "a" 10, mkAct "b" 20]).2.calls
      = (loadTwice echoApi 5 7 (freshCache (some "tok")) 0
          [mkAct "a" 10, mkAct "b" 20]).1.calls
    ∧ (loadTwice echoApi 5 7 (freshCache (some "tok")) 0
        [mkAct "a" 10, mkAct "b" 20]).2.cache.apiCallCount
      = (loadTwice echoApi 5 7 (freshCache (some "tok")) 0
          [mkAct "a" 10, mkAct "b" 20]).1.cache.apiCallCount
    ∧ (loadTwice echoApi 5 7 (freshCache (some "tok")) 0
        [mkAct "a" 10, mkAct "b" 20]).2.result.map stripMeta
      = (loadTwice echoApi 5 7 (freshCache (some "tok")) 0
          [mkAct "a" 10, mkAct "b" 20]).1.result.map stripMeta :=
  c2_idempotent_up_to_metadata echoApi 5 7 (freshCache (some "tok")) 0
    [mkAct "a" 10, mkAct "b" 20] (by decide)
    (fun id => mkAct id 1736200000000) (fun n id => rfl) (fun id => rfl)

open WeeklyMileageDatabase WeeklyMileageCalculator

theorem getWeeklyMileage_store_ne (wdb : WDb) (now : Int) (weekData : WeeklyData)
    (wid : String) (h : wid ≠ weekData.weekId) :
    getWeeklyMileage (storeWeeklyMileage wdb now weekData) wid
      = getWeeklyMileage wdb wid := by
  unfold storeWeeklyMileage getWeeklyMileage
  exact findBy_upsertBy_ne _ _ _ _ (by simpa using h)

theorem processWeek_skip (api : Api) (now weekStart weekEnd : Int) (st : PassState)
    (ex : StoredWeeklyData)
    (hex : getWeeklyMileage st.wdb (getWeekId weekStart) = some ex)
    (hcomp : ex.isComplete = true) :
    processWeek api now weekStart weekEnd st
      = Except.ok { st with stats :=
          { st.stats with cacheHits := st.stats.cacheHits + 1 } } := by
  simp [processWeek, hex, hcomp]

theorem processWeek_coverage (api : Api) (now ws we : Int) (st : PassState)
    (hns : ((getWeeklyMileage st.wdb (getWeekId ws)).map
        (fun d => d.isComplete)).getD false = false)
    (hcov : hasCompleteWeekCoverage now
        ((getCachedActivitiesForWeek st.cache.db ws we).filter isRun) ws we = true) :
    processWeek api now ws we st = Except.ok { st with
      wdb := storeWeeklyMileage st.wdb now
        (calculateWeekData (getWeekId ws) ws we
          ((getCachedActivitiesForWeek st.cache.db ws we).filter isRun) true)
      stats := { st.stats with cacheHits := st.stats.cacheHits + 1 } } := by
  simp [processWeek, hns, hcov]

theorem processWeek_fetch (api : Api) (now ws we : Int) (st : PassState)
    (hns : ((getWeeklyMileage st.wdb (getWeekId ws)).map
        (fun d => d.isComplete)).getD false = false)
    (hcov : hasCompleteWeekCoverage now
        ((getCachedActivitiesForWeek st.cache.db ws we).filter isRun) ws we = false) :
    processWeek api now ws we st
      = match fetchCompleteWeekData api now ws we
          ((getCachedActivitiesForWeek st.cache.db ws we).filter isRun)
          st.cache st.calls with
        | Except.error e => Except.error e
        | Except.ok (allRuns, cache2, calls2) =>
          Except.ok { wdb := (storeWeeklyMileage st.wdb now
                         (calculateWeekData (getWeekId ws) ws we allRuns true)),
                      cache := cache2,
                      stats := { st.stats with
                        apiCallsMade := st.stats.apiCallsMade + 1 },
                      calls := calls2 } := by
  simp [processWeek, hns, hcov]

theorem processWeek_preserves_complete (api : Api) (now weekStart weekEnd : Int)
    (st st' : PassState) (wid : String) (wd : StoredWeeklyData)
    (hok : processWeek api now weekStart weekEnd st = Except.ok st')
    (hw : getWeeklyMileage st.wdb wid = some wd) (hc : wd.isComplete = true) :
    getWeeklyMileage st'.wdb wid = some wd := by
  by_cases hkey : wid = getWeekId weekStart
  · subst hkey
    rw [processWeek_skip api now weekStart weekEnd st wd hw hc] at hok
    injection hok with hok
    rw [← hok]
    exact hw
  · cases hskip : ((getWeeklyMileage st.wdb (getWeekId weekStart)).map
        (fun d => d.isComplete)).getD false with
    | true =>
      cases hex : getWeeklyMileage st.wdb (getWeekId weekStart) with
      | none => rw [hex] at hskip; simp at hskip
      | some ex =>
        have hcomp : ex.isComplete = true := by
          rw [hex] at hskip
          simpa using hskip
        rw [processWeek_skip api now weekStart weekEnd st ex hex hcomp] at hok
        injection hok with hok
        rw [← hok]
        exact hw
    | false =>
      by_cases hcov : hasCompleteWeekCoverage now
          ((getCachedActivitiesForWeek st.cache.db weekStart weekEnd).filter isRun)
          weekStart weekEnd = true
      · rw [processWeek_coverage api now weekStart weekEnd st hskip hcov] at hok
        injection hok with hok
        rw [← hok]
        show getWeeklyMileage (storeWeeklyMileage st.wdb now
          (calculateWeekData (getWeekId weekStart) weekStart weekEnd
            ((getCachedActivitiesForWeek st.cache.db weekStart weekEnd).filter isRun)
            true)) wid = some wd
        rw [getWeeklyMileage_store_ne _ _ _ _ hkey]
        exact hw
      · have hcov' : hasCompleteWeekCoverage now
            ((getCachedActivitiesForWeek st.cache.db weekStart weekEnd).filter isRun)
            weekStart weekEnd = false := by simpa using hcov
        rw [processWeek_fetch api now weekStart weekEnd st hskip hcov'] at hok
        cases hf : fetchCompleteWeekData api now weekStart weekEnd
            ((getCachedActivitiesForWeek st.cache.db weekStart weekEnd).filter isRun)
            st.cache st.calls with
        | error e =>
          simp only [hf] at hok
          exact Except.noConfusion hok
        | ok trip =>
          rcases trip with ⟨allRuns, cache2, calls2⟩
          simp only [hf] at hok
          injection hok with hok
          rw [← hok]
          show getWeeklyMileage (storeWeeklyMileage st.wdb now
            (calculateWeekData (getWeekId weekStart) weekStart weekEnd allRuns true))
            wid = some wd
          rw [getWeeklyMileage_store_ne _ _ _ _ hkey]
          exact hw

theorem calcLoop_stopped (api : Api) (now : Int) (fuel : Nat) (cw : Int)
    (st : PassState) (hrl : st.stats.rateLimitReached = true) :
    calcLoop api now (fuel + 1) cw st = st := by
  simp [calcLoop, hrl]

theorem calcLoop_ok (api : Api) (now : Int) (fuel : Nat) (cw : Int)
    (st st' : PassState) (hrl : st.stats.rateLimitReached = false)
    (hpw : processWeek api now (getWeekStart cw) (getWeekEnd cw) st = Except.ok st') :
    calcLoop api now (fuel + 1) cw st
      = calcLoop api now fuel (cw - 7 * msPerDay)
          { st' with stats :=
              { st'.stats with weeksProcessed := st'.stats.weeksProcessed + 1 } } := by
  simp [calcLoop, hrl, hpw]

theorem calcLoop_rl (api : Api) (now : Int) (fuel : Nat) (cw : Int)
    (st : PassState) (calls2 : Nat) (hrl : st.stats.rateLimitReached = false)
    (hpw : processWeek api now (getWeekStart cw) (getWeekEnd cw) st
      = Except.error (ApiErr.rateLimited, calls2)) :
    calcLoop api now (fuel + 1) cw st
      = { st with stats := { st.stats with rateLimitReached := true }, calls := calls2 } := by
  simp [calcLoop, hrl, hpw]

theorem calcLoop_err (api : Api) (now : Int) (fuel : Nat) (cw : Int)
    (st : PassState) (e : ApiErr) (calls2 : Nat)
    (hrl : st.stats.rateLimitReached = false)
    (he : (e = ApiErr.rateLimited) = False)
    (hpw : processWeek api now (getWeekStart cw) (getWeekEnd cw) st
      = Except.error (e, calls2)) :
    calcLoop api now (fuel + 1) cw st
      = calcLoop api now fuel (cw - 7 * msPerDay)
          { st with stats := { st.stats with lastError := some e }, calls := calls2 } := by
  simp [calcLoop, hrl, hpw, he]

theorem calcLoop_preserves_complete (api : Api) (now : Int) :
    ∀ (fuel : Nat) (cw : Int) (st : PassState) (wid : String) (wd : StoredWeeklyData),
      getWeeklyMileage st.wdb wid = some wd → wd.isComplete = true →
      getWeeklyMileage (calcLoop api now fuel cw st).wdb wid = some wd := by
  intro fuel
  induction fuel with
  | zero => intro cw st wid wd hw _; exact hw
  | succ n ih =>
    intro cw st wid wd hw hc
    by_cases hrl : st.stats.rateLimitReached = true
    · rw [calcLoop_stopped api now n cw st hrl]
      exact hw
    · have hrl' : st.stats.rateLimitReached = false := by simpa using hrl
      cases hpw : processWeek api now (getWeekStart cw) (getWeekEnd cw) st with
      | ok st' =>
        rw [calcLoop_ok api now n cw st st' hrl' hpw]
        exact ih _ _ _ _
          (processWeek_preserves_complete api now _ _ st st' wid wd hpw hw hc) hc
      | error e =>
        rcases e with ⟨e, calls2⟩
        by_cases he : e = ApiErr.rateLimited
        · subst he
          rw [calcLoop_rl api now n cw st calls2 hrl' hpw]
          exact hw
        · rw [calcLoop_err api now n cw st e calls2 hrl' (by simp [he]) hpw]
          exact ih _ _ _ _ hw hc

/-- C4: a week whose aggregate is already persisted with isComplete = true is
skipped by processWeek — the pass makes zero remote calls for it, records a
cache hit and leaves both stores, the call counter and the persisted record
(hence its totals) untouched — and throughout a whole calculation pass a
persisted complete aggregate is never modified; in particular isComplete never
transitions from true back to false. -/
theorem c4_complete_weeks_immutable :
    (∀ (api : Api) (now weekStart weekEnd : Int) (st : PassState)
        (ex : StoredWeeklyData),
        getWeeklyMileage st.wdb (getWeekId weekStart) = some ex →
        ex.isComplete = true →
        processWeek api now weekStart weekEnd st
          = Except.ok { st with stats :=
              { st.stats with cacheHits := st.stats.cacheHits + 1 } })
    ∧ (∀ (api : Api) (now : Int) (fuel : Nat) (cw : Int) (st : PassState)
        (wid : String) (wd : StoredWeeklyData),
        getWeeklyMileage st.wdb wid = some wd → wd.isComplete = true →
        getWeeklyMileage (calcLoop api now fuel cw st).wdb wid = some wd) :=
  ⟨processWeek_skip, calcLoop_preserves_complete⟩

/-- Concrete complete weekly aggregate for the ISO week of Monday 2025-01-06. -/
def completeWeek : StoredWeeklyData :=
  { weekId := "2025-02", year := 2025, weekNumber := 2, weekStart := 1736121600000,
    weekEnd := 1736726399999, totalDistance := 100, totalTime := 60,
    totalElevation := 5, runCount := 1, isComplete := true, activities := [],
    calculatedAt := 0, lastUpdated := 0 }

/-- Concrete pass state whose weekly store holds the complete aggregate. -/
def passState0 : PassState :=
  { wdb := [completeWeek], cache := freshCache (some "tok"),
    stats := initialStats, calls := 0 }

/-- C4 witness: the immutability theorem applied at the concrete stored
complete week. -/
theorem c4_complete_weeks_immutable_witness :
    processWeek echoApi 1736942400000 1736121600000 1736726399999 passState0
      = Except.ok { passState0 with stats :=
          { passState0.stats with cacheHits := passState0.stats.cacheHits + 1 } }
    ∧ getWeeklyMileage
        (calcLoop echoApi 1736942400000 1 1736121600000 passState0).wdb "2025-02"
      = some completeWeek :=
  ⟨c4_complete_weeks_immutable.1 echoApi 1736942400000 1736121600000 1736726399999
      passState0 completeWeek (by decide) rfl,
   c4_complete_weeks_immutable.2 echoApi 1736942400000 1 1736121600000 passState0
      "2025-02" completeWeek (by decide) rfl⟩

/-- C3 amended, part machinery: a rate-limited list call inside
fetchCompleteWeekData is re-thrown with the consumed call counter. -/
theorem fetchCompleteWeekData_rl (api : Api) (now ws we : Int)
    (cachedRuns : List Activity) (cache : CacheState) (calls : Nat)
    (hlist : api.getActivities calls (some (ws.ediv 1000)) (some (we.ediv 1000))
      = Except.error ApiErr.rateLimited) :
    fetchCompleteWeekData api now ws we cachedRuns cache calls
      = Except.error (ApiErr.rateLimited, calls + 1) := by
  simp [fetchCompleteWeekData, hlist]

/-- C3 amended: (1) Scenario E — with no calculation in progress, no persisted
aggregate for the single target week, zero cached activities in that week and
the week's list call rate limited, computeBackward(1) returns statistics with
weeksProcessed = 0 and rateLimitReached = true, makes exactly that one remote
call, and persists nothing (the weekly store is returned unchanged); (2) in
general, whenever processWeek ends with a rate-limited error (which the code
raises only for the week's list call — per-id detail failures are absorbed),
the pass stops within that week: the rate-limit flag is set and the weekly
store is left exactly as it was before that week, so every week fully
processed earlier remains persisted and retrievable. -/
theorem c3_rate_limit_stops_pass :
    (∀ (api : Api) (now : Int) (cs : CalculatorState) (calls : Nat),
      cs.isCalculating = false →
      getWeeklyMileage cs.wdb
        (getWeekId (getWeekStart (getWeekStart now - 7 * msPerDay))) = none →
      getCachedActivitiesForWeek cs.cache.db
        (getWeekStart (getWeekStart now - 7 * msPerDay))
        (getWeekEnd (getWeekStart now - 7 * msPerDay)) = [] →
      api.getActivities calls
        (some ((getWeekStart (getWeekStart now - 7 * msPerDay)).ediv 1000))
        (some ((getWeekEnd (getWeekStart now - 7 * msPerDay)).ediv 1000))
        = Except.error ApiErr.rateLimited →
      calculateWeeklyMileage api now 1 cs calls
        = ({ initialStats with rateLimitReached := true },
           { isCalculating := false,
             calculationStats := { initialStats with rateLimitReached := true },
             wdb := cs.wdb, cache := cs.cache },
           calls + 1))
    ∧ (∀ (api : Api) (now : Int) (fuel : Nat) (cw : Int) (st : PassState)
        (calls2 : Nat),
        st.stats.rateLimitReached = false →
        processWeek api now (getWeekStart cw) (getWeekEnd cw) st
          = Except.error (ApiErr.rateLimited, calls2) →
        calcLoop api now (fuel + 1) cw st
          = { st with stats := { st.stats with rateLimitReached := true }, calls := calls2 }) := by
  constructor
  · intro api now cs calls hcalc hlook hcached hlist
    have hskipc : ((getWeeklyMileage cs.wdb
        (getWeekId (getWeekStart (getWeekStart now - 7 * msPerDay)))).map
          (fun d => d.isComplete)).getD false = false := by
      rw [hlook]; rfl
    have hcov : hasCompleteWeekCoverage now
        ((getCachedActivitiesForWeek cs.cache.db
          (getWeekStart (getWeekStart now - 7 * msPerDay))
          (getWeekEnd (getWeekStart now - 7 * msPerDay))).filter isRun)
        (getWeekStart (getWeekStart now - 7 * msPerDay))
        (getWeekEnd (getWeekStart now - 7 * msPerDay)) = false := by
      rw [hcached]; rfl
    have hf : fetchCompleteWeekData api now
        (getWeekStart (getWeekStart now - 7 * msPerDay))
        (getWeekEnd (getWeekStart now - 7 * msPerDay))
        ((getCachedActivitiesForWeek cs.cache.db
          (getWeekStart (getWeekStart now - 7 * msPerDay))
          (getWeekEnd (getWeekStart now - 7 * msPerDay))).filter isRun)
        cs.cache calls
        = Except.error (ApiErr.rateLimited, calls + 1) :=
      fetchCompleteWeekData_rl api now _ _ _ cs.cache calls hlist
    have hpw : processWeek api now
        (getWeekStart (getWeekStart now - 7 * msPerDay))
        (getWeekEnd (getWeekStart now - 7 * msPerDay))
        { wdb := cs.wdb, cache := cs.cache, stats := initialStats, calls := calls }
        = Except.error (ApiErr.rateLimited, calls + 1) := by
      rw [processWeek_fetch api now _ _ _ hskipc hcov]
      simp only [hf]
    have hloop := calcLoop_rl api now 0 (getWeekStart now - 7 * msPerDay)
      { wdb := cs.wdb, cache := cs.cache, stats := initialStats, calls := calls }
      (calls + 1) rfl hpw
    simp [calculateWeeklyMileage, hcalc, hloop]
  · intro api now fuel cw st calls2 hrl hpw
    exact calcLoop_rl api now fuel cw st calls2 hrl hpw

/-- Oracle whose single list call returns one new run and whose detail calls
are always rate limited. -/
def rlDetailApi : Api :=
  { getActivity := fun _ _ => .error .rateLimited,
    getActivities := fun n _ _ =>
      if n = 0 then .ok [mkAct "n1" 1736200000000] else .error .other,
    getAthlete := fun _ => true }

/-- Oracle whose list calls are always rate limited. -/
def rlListApi : Api :=
  { getActivity := fun _ _ => .error .other,
    getActivities := fun _ _ _ => .error .rateLimited,
    getAthlete := fun _ => true }

/-- Idle calculator over empty stores with a token. -/
def idleCalc : CalculatorState :=
  { isCalculating := false, calculationStats := initialStats,
    wdb := [], cache := freshCache (some "tok") }

/-- C3 counterexample: a RateLimited error received on the second remote call
of the pass — a per-id detail fetch — does not stop computeBackward: the load
falls back to the summary record, the week is persisted, and the pass ends
with rateLimitReached = false and weeksProcessed = 1 after two remote calls. -/
theorem c3_counterexample :
    rlDetailApi.getActivity 1 "n1" = Except.error ApiErr.rateLimited
    ∧ (calculateWeeklyMileage rlDetailApi 1736942400000 1 idleCalc 0).2.2 = 2
    ∧ (calculateWeeklyMileage rlDetailApi 1736942400000 1 idleCalc 0).1.rateLimitReached
      = false
    ∧ (calculateWeeklyMileage rlDetailApi 1736942400000 1 idleCalc 0).1.weeksProcessed
      = 1 := by
  decide

/-- C3 witness: the amended theorem's Scenario E part applied to a concrete
empty-store calculator whose list call is rate limited. -/
theorem c3_rate_limit_stops_pass_witness :
    calculateWeeklyMileage rlListApi 1736942400000 1 idleCalc 0
      = ({ initialStats with rateLimitReached := true },
         { isCalculating := false,
           calculationStats := { initialStats with rateLimitReached := true },
           wdb := idleCalc.wdb, cache := idleCalc.cache },
         0 + 1) :=
  c3_rate_limit_stops_pass.1 rlListApi 1736942400000 idleCalc 0 rfl rfl rfl rfl

theorem load_calls_ge (api : Api) (now : Int) (st : CacheState) (calls : Nat)
    (summaries : List Activity) :
    calls ≤ (loadActivitiesWithPrivateNotes api now st calls summaries).calls := by
  by_cases hemp : summaries.isEmpty
  · have h0 : summaries = [] := by simpa using hemp
    subst h0
    simp [loadActivitiesWithPrivateNotes]
  · have hemp' : summaries.isEmpty = false := by simpa using hemp
    simp only [loadActivitiesWithPrivateNotes, hemp', Bool.false_eq_true, if_false]
    split
    · show calls ≤ (fetchLoop api now summaries
        (ActivityDatabase.getMissingActivityIds st.db (summaries.map (fun a => a.id)))
        { st with memoryCache :=
            (buildMap (cachedForLoad st.db (summaries.map (fun a => a.id))
              (ActivityDatabase.getMissingActivityIds st.db
                (summaries.map (fun a => a.id)))) st.memoryCache) }
        calls
        (buildMap (cachedForLoad st.db (summaries.map (fun a => a.id))
          (ActivityDatabase.getMissingActivityIds st.db
            (summaries.map (fun a => a.id)))) [])).2.1
      rw [(fetchLoop_counts api now summaries _ _ _ _).1]
      exact Nat.le_add_right _ _
    · exact Nat.le_refl _

theorem fetchCompleteWeekData_calls (api : Api) (now ws we : Int)
    (cachedRuns : List Activity) (cache : CacheState) (calls : Nat) :
    (match fetchCompleteWeekData api now ws we cachedRuns cache calls with
     | Except.error (_, c) => c = calls + 1
     | Except.ok (_, _, c) => calls + 1 ≤ c) := by
  cases hl : api.getActivities calls (some (ws.ediv 1000)) (some (we.ediv 1000)) with
  | error e =>
    cases e
    · rw [fetchCompleteWeekData_rl api now ws we cachedRuns cache calls hl]
    · have hother : fetchCompleteWeekData api now ws we cachedRuns cache calls
          = Except.ok (cachedRuns, cache, calls + 1) := by
        simp [fetchCompleteWeekData, hl]
      rw [hother]
  | ok apiActivities =>
    simp only [fetchCompleteWeekData, hl]
    by_cases hnew : ((apiActivities.filter isRun).filter
        (fun r => decide (r.id ∉ cachedRuns.map (fun r => r.id)))).isEmpty = true
    · rw [if_pos hnew]
    · rw [if_neg hnew]
      exact load_calls_ge api now cache (calls + 1) _

/-- C6 amended: the coverage decision works on the cached run-typed activities
only (type or sport_type equal to Run): a week that ended more than 7 days
before now is judged complete exactly when at least one cached run falls in
it, a younger week exactly when its cached runs span at least two distinct
calendar days; and for a week with no already-persisted complete aggregate,
no remote call is made when the week is judged complete, while a remote list
call is issued (consuming at least one call, the list call itself) exactly
when it is judged incomplete. -/
theorem c6_coverage_decision :
    (∀ (now : Int) (runs : List Activity) (ws we : Int),
      hasCompleteWeekCoverage now runs ws we
        = if 7 * msPerDay < now - we then !runs.isEmpty
          else decide (2 ≤ ((runs.map (fun r => msToDay r.start_date)).dedup).length))
    ∧ (∀ (api : Api) (now ws we : Int) (st : PassState),
        ((getWeeklyMileage st.wdb (getWeekId ws)).map
          (fun d => d.isComplete)).getD false = false →
        hasCompleteWeekCoverage now
          ((getCachedActivitiesForWeek st.cache.db ws we).filter isRun) ws we = true →
        ∃ st', processWeek api now ws we st = Except.ok st' ∧ st'.calls = st.calls)
    ∧ (∀ (api : Api) (now ws we : Int) (st : PassState),
        ((getWeeklyMileage st.wdb (getWeekId ws)).map
          (fun d => d.isComplete)).getD false = false →
        hasCompleteWeekCoverage now
          ((getCachedActivitiesForWeek st.cache.db ws we).filter isRun) ws we = false →
        (match processWeek api now ws we st with
         | Except.error (_, c) => c = st.calls + 1
         | Except.ok st' => st.calls + 1 ≤ st'.calls)) := by
  refine ⟨?_, ?_, ?_⟩
  · intro now runs ws we
    cases hrE : runs.isEmpty with
    | true =>
      have h0 : runs = [] := by simpa using hrE
      subst h0
      simp [hasCompleteWeekCoverage]
    | false =>
      by_cases hage : 7 * msPerDay < now - we
      · simp [hasCompleteWeekCoverage, hrE, hage]
      · simp [hasCompleteWeekCoverage, hrE, hage]
  · intro api now ws we st hns hcov
    exact ⟨_, processWeek_coverage api now ws we st hns hcov, rfl⟩
  · intro api now ws we st hns hcov
    rw [processWeek_fetch api now ws we st hns hcov]
    have h := fetchCompleteWeekData_calls api now ws we
      ((getCachedActivitiesForWeek st.cache.db ws we).filter isRun) st.cache st.calls
    cases hf : fetchCompleteWeekData api now ws we
        ((getCachedActivitiesForWeek st.cache.db ws we).filter isRun)
        st.cache st.calls with
    | error e =>
      rcases e with ⟨e, c⟩
      rw [hf] at h
      simpa using h
    | ok trip =>
      rcases trip with ⟨allRuns, cache2, calls2⟩
      rw [hf] at h
      simpa using h

/-- Cached non-run activity inside the week of Monday 2024-12-30. -/
def rideAct : Activity :=
  { mkAct "r1" 1735600000000 with type := "Ride", sport_type := "Ride" }

/-- Pass state whose activity store holds only the cached ride. -/
def c6State : PassState :=
  { wdb := [], cache := { freshCache (some "tok") with db := [rideAct] },
    stats := initialStats, calls := 0 }

/-- C6 counterexample: the week Monday 2024-12-30 to Sunday 2025-01-05 ended
more than 7 days before now (2025-01-15) and a cached activity (a Ride) falls
within it, so the claim as stated judges the week complete and forbids a
remote call; the code filters coverage to run-typed activities only, judges
the week incomplete, and issues the remote list call (the pass's call counter
moves from 0 to 1). -/
theorem c6_counterexample :
    decide (7 * msPerDay < 1736942400000 - 1736121599999) = true
    ∧ getCachedActivitiesForWeek c6State.cache.db 1735516800000 1736121599999
      = [rideAct]
    ∧ hasCompleteWeekCoverage 1736942400000
        ((getCachedActivitiesForWeek c6State.cache.db 1735516800000 1736121599999).filter
          isRun) 1735516800000 1736121599999 = false
    ∧ (match processWeek echoApi 1736942400000 1735516800000 1736121599999 c6State with
       | Except.ok s => s.calls
       | Except.error (_, c) => c) = 1 := by
  decide

/-- C6 witness: the incomplete-coverage part of the amended theorem applied to
the concrete ride-only state, showing the remote list call being consumed. -/
theorem c6_coverage_decision_witness :
    (match processWeek echoApi 1736942400000 1735516800000 1736121599999 c6State with
     | Except.error (_, c) => c = c6State.calls + 1
     | Except.ok st' => c6State.calls + 1 ≤ st'.calls) :=
  c6_coverage_decision.2.2 echoApi 1736942400000 1735516800000 1736121599999 c6State
    (by decide) (by decide)

theorem getActivity_eq_none_of_not_mem {db : ActivityDatabase.Db} {id : String}
    (h : id ∉ db.map (fun r => r.id)) :
    ActivityDatabase.getActivity db id = none := by
  cases hg : ActivityDatabase.getActivity db id with
  | none => rfl
  | some r =>
    have hrid : r.id = id := findBy_eq_some_key hg
    have hrmem : r ∈ db := List.mem_of_find?_eq_some hg
    exact absurd (List.mem_map.mpr ⟨r, hrmem, hrid⟩) h

theorem getMissing_all {db : ActivityDatabase.Db} {ids : List String}
    (h : ∀ id ∈ ids, ActivityDatabase.getActivity db id = none) :
    ActivityDatabase.getMissingActivityIds db ids = ids := by
  have h1 : ActivityDatabase.getActivities db ids = [] :=
    List.filterMap_eq_nil_iff.mpr h
  simp only [ActivityDatabase.getMissingActivityIds, h1]
  exact List.filter_eq_self.mpr (fun a _ => by simp)

theorem load_counts_token (api : Api) (now : Int) (st : CacheState) (calls : Nat)
    (summaries : List Activity) (hemp' : summaries.isEmpty = false)
    (hb : (tokenPresent st.accessToken
        && !(ActivityDatabase.getMissingActivityIds st.db
              (summaries.map (fun a => a.id))).isEmpty) = true) :
    (loadActivitiesWithPrivateNotes api now st calls summaries).calls
      = calls + (ActivityDatabase.getMissingActivityIds st.db
          (summaries.map (fun a => a.id))).length
    ∧ (loadActivitiesWithPrivateNotes api now st calls summaries).cache.apiCallCount
      = st.apiCallCount + (ActivityDatabase.getMissingActivityIds st.db
          (summaries.map (fun a => a.id))).length := by
  constructor
  · simp only [load_token_missing api now st calls summaries hemp' hb]
    exact (fetchLoop_counts api now summaries _ _ _ _).1
  · simp only [load_token_missing api now st calls summaries hemp' hb]
    exact (fetchLoop_counts api now summaries _ _ _ _).2.1

namespace PrivateNotesViewer

theorem refreshData_merge (api : Api) (now : Int) (cache : CacheState) (calls : Nat)
    (f t : Int) (apiActs : List Activity)
    (htok2 : tokenPresent cache.accessToken = true)
    (hath : api.getAthlete calls = true)
    (hlist : api.getActivities (calls + 1) (some (f.ediv 1000)) (some (t.ediv 1000))
      = Except.ok apiActs)
    (hae : apiActs.isEmpty = false)
    (hne : (apiActs.filter (fun a => decide (a.id ∉
        (ActivityDatabase.getAllActivities cache.db).map (fun a => a.id)))).isEmpty
      = false) :
    refreshData api now cache calls (some (f, t))
      = ⟨sortByStartDateDesc
           ((((ActivityDatabase.getAllActivities cache.db).filter
               (fun a => decide (f ≤ a.start_date ∧ a.start_date ≤ t)))
             ++ (SmartActivityCache.loadActivitiesWithPrivateNotes api now cache
                  (calls + 2)
                  (apiActs.filter (fun a => decide (a.id ∉
                    (ActivityDatabase.getAllActivities cache.db).map
                      (fun a => a.id))))).result).filter
             (fun a => decide (f ≤ a.start_date ∧ a.start_date ≤ t))),
         (SmartActivityCache.loadActivitiesWithPrivateNotes api now cache (calls + 2)
           (apiActs.filter (fun a => decide (a.id ∉
             (ActivityDatabase.getAllActivities cache.db).map (fun a => a.id))))).cache,
         (SmartActivityCache.loadActivitiesWithPrivateNotes api now cache (calls + 2)
           (apiActs.filter (fun a => decide (a.id ∉
             (ActivityDatabase.getAllActivities cache.db).map
               (fun a => a.id))))).calls⟩ := by
  simp [refreshData, htok2, hath, hlist, hae, hne]
  intro hall
  exfalso
  have hnil : (apiActs.filter (fun a => decide (a.id ∉
      (ActivityDatabase.getAllActivities cache.db).map (fun a => a.id)))) = [] := by
    rw [List.filter_eq_nil_iff]
    intro a ha
    rcases hall a ha with ⟨x, hx, hxid⟩
    simp only [decide_eq_true_eq, not_not]
    exact List.mem_map.mpr ⟨x, hx, hxid⟩
  rw [hnil] at hne
  simp at hne

end PrivateNotesViewer

theorem sortByStartDateDesc_sorted (l : List Activity) :
    (PrivateNotesViewer.sortByStartDateDesc l).Pairwise
      (fun a b => b.start_date ≤ a.start_date) := by
  induction l with
  | nil => exact List.Pairwise.nil
  | cons a t ih =>
    rw [PrivateNotesViewer.sortByStartDateDesc_cons]
    exact PrivateNotesViewer.insertDesc_pairwise a _ ih

theorem sortByStartDateDesc_perm (l : List Activity) :
    (PrivateNotesViewer.sortByStartDateDesc l).Perm l := by
  induction l with
  | nil => exact List.Perm.refl _
  | cons a t ih =>
    rw [PrivateNotesViewer.sortByStartDateDesc_cons]
    exact (PrivateNotesViewer.insertDesc_perm a _).trans (List.Perm.cons a ih)

set_option maxHeartbeats 1000000 in
/-- C8: in the explicit-range refresh flow (token present, connection probe
succeeding, list call returning a non-empty page containing at least one
uncached activity), the merged result handed to the view is the
date-descending sort of the in-range cached activities together with the
detail-enriched new activities, filtered to the requested range: it is sorted
by start_date descending, it is a permutation of that merged in-range set, and
exactly one athlete probe, one list call and one detail call per new
(uncached) activity are made — the session detail-call counter grows by
exactly the number of new activities. -/
theorem c8_range_refresh_sorted (api : Api) (now : Int) (cache : CacheState)
    (calls : Nat) (f t : Int) (apiActs : List Activity)
    (htok2 : tokenPresent cache.accessToken = true)
    (hath : api.getAthlete calls = true)
    (hlist : api.getActivities (calls + 1) (some (f.ediv 1000)) (some (t.ediv 1000))
      = Except.ok apiActs)
    (hae : apiActs.isEmpty = false)
    (hne : (apiActs.filter (fun a => decide (a.id ∉
        (ActivityDatabase.getAllActivities cache.db).map (fun a => a.id)))).isEmpty
      = false) :
    (PrivateNotesViewer.refreshData api now cache calls
        (some (f, t))).activities.Pairwise
      (fun a b => b.start_date ≤ a.start_date)
    ∧ (PrivateNotesViewer.refreshData api now cache calls
        (some (f, t))).activities.Perm
      ((((ActivityDatabase.getAllActivities cache.db).filter
          (fun a => decide (f ≤ a.start_date ∧ a.start_date ≤ t)))
        ++ (loadActivitiesWithPrivateNotes api now cache (calls + 2)
             (apiActs.filter (fun a => decide (a.id ∉
               (ActivityDatabase.getAllActivities cache.db).map
                 (fun a => a.id))))).result).filter
        (fun a => decide (f ≤ a.start_date ∧ a.start_date ≤ t)))
    ∧ (PrivateNotesViewer.refreshData api now cache calls (some (f, t))).calls
      = calls + 2 + (apiActs.filter (fun a => decide (a.id ∉
          (ActivityDatabase.getAllActivities cache.db).map (fun a => a.id)))).length
    ∧ (PrivateNotesViewer.refreshData api now cache calls
        (some (f, t))).cache.apiCallCount
      = cache.apiCallCount + (apiActs.filter (fun a => decide (a.id ∉
          (ActivityDatabase.getAllActivities cache.db).map (fun a => a.id)))).length := by
  have hindb : ∀ id ∈ (apiActs.filter (fun a => decide (a.id ∉
      (ActivityDatabase.getAllActivities cache.db).map (fun a => a.id)))).map
        (fun a => a.id),
      ActivityDatabase.getActivity cache.db id = none := by
    intro id hid
    rcases List.mem_map.mp hid with ⟨a, ha, haid⟩
    rcases List.mem_filter.mp ha with ⟨_, hdec⟩
    have hnotin : a.id ∉ (ActivityDatabase.getAllActivities cache.db).map
        (fun a => a.id) := of_decide_eq_true hdec
    rw [← haid]
    exact getActivity_eq_none_of_not_mem hnotin
  have hmiss := getMissing_all hindb
  have hb : (tokenPresent cache.accessToken
      && !(ActivityDatabase.getMissingActivityIds cache.db
            ((apiActs.filter (fun a => decide (a.id ∉
              (ActivityDatabase.getAllActivities cache.db).map
                (fun a => a.id)))).map (fun a => a.id))).isEmpty) = true := by
    rw [htok2, hmiss]
    cases hx : apiActs.filter (fun a => decide (a.id ∉
        (ActivityDatabase.getAllActivities cache.db).map (fun a => a.id))) with
    | nil => rw [hx] at hne; simp at hne
    | cons y ys => simp
  rcases load_counts_token api now cache (calls + 2)
      (apiActs.filter (fun a => decide (a.id ∉
        (ActivityDatabase.getAllActivities cache.db).map (fun a => a.id))))
      hne hb with ⟨hc1, hc2⟩
  refine ⟨?_, ?_, ?_, ?_⟩
  · simp only [PrivateNotesViewer.refreshData_merge api now cache calls f t apiActs
      htok2 hath hlist hae hne]
    exact sortByStartDateDesc_sorted _
  · simp only [PrivateNotesViewer.refreshData_merge api now cache calls f t apiActs
      htok2 hath hlist hae hne]
    exact sortByStartDateDesc_perm _
  · simp only [PrivateNotesViewer.refreshData_merge api now cache calls f t apiActs
      htok2 hath hlist hae hne]
    rw [hc1, hmiss, List.length_map]
  · simp only [PrivateNotesViewer.refreshData_merge api now cache calls f t apiActs
      htok2 hath hlist hae hne]
    rw [hc2, hmiss, List.length_map]

/-- Five cached in-range activities for the scenario-D witness. -/
def c8db : ActivityDatabase.Db :=
  [mkAct "a1" 1735600000000, mkAct "a2" 1735700000000, mkAct "a3" 1735800000000,
   mkAct "a4" 1735900000000, mkAct "a5" 1736000000000]

/-- Oracle for scenario D: the list call returns the five cached activities
plus two new ones, detail calls echo the requested id. -/
def c8api : Api :=
  { getActivity := fun _ id =>
      .ok (mkAct id (if id = "b1" then 1736100000000 else 1736200000000)),
    getActivities := fun _ _ _ =>
      .ok (c8db ++ [mkAct "b1" 1736100000000, mkAct "b2" 1736200000000]),
    getAthlete := fun _ => true }

/-- Cache state holding exactly the five in-range activities. -/
def c8cache : CacheState := { freshCache (some "tok") with db := c8db }

/-- C8 witness (Scenario D): refresh over an explicit range with 5 cached
in-range activities and a remote page holding those same 5 plus 2 new ones
returns 7 activities sorted by date descending, with exactly 2 detail calls
(the session counter moves 0 to 2; global remote calls: probe, list, and the
2 details). -/
theorem c8_range_refresh_sorted_witness :
    (PrivateNotesViewer.refreshData c8api 1736942400000 c8cache 0
        (some (1735500000000, 1736300000000))).activities.Pairwise
      (fun a b => b.start_date ≤ a.start_date)
    ∧ (PrivateNotesViewer.refreshData c8api 1736942400000 c8cache 0
        (some (1735500000000, 1736300000000))).activities.length = 7
    ∧ (PrivateNotesViewer.refreshData c8api 1736942400000 c8cache 0
        (some (1735500000000, 1736300000000))).cache.apiCallCount = 2
    ∧ (PrivateNotesViewer.refreshData c8api 1736942400000 c8cache 0
        (some (1735500000000, 1736300000000))).calls = 4 :=
  ⟨(c8_range_refresh_sorted c8api 1736942400000 c8cache 0 1735500000000
      1736300000000 (c8db ++ [mkAct "b1" 1736100000000, mkAct "b2" 1736200000000])
      rfl rfl rfl (by decide) (by decide)).1,
   by decide, by decide, by decide⟩
